import Mathlib

/-!
# ExpressApi: canonical model, platform adapter and reconciliation engine

A shallow embedding of `src/class/Product.js`, `src/utils/utils.js` and, from
`src/services/products.js`, the reconciliation functions and `getProductsPrefix`.

* JavaScript values are the inductive `JSVal`; an expression that can throw a
  `TypeError` is an `Option` (`none` is the throw).
* The `products` table is a list of `Row`s in insertion order; every statement
  sent to the pool is recorded in a log.
* What lives outside the repository (the `CompanyPrefixEnum` constants, `uuidv4`,
  the clock, the driver's text rendering, storage failures) is the record `Env`.
-/

namespace ExpressApi

/-! ## JavaScript values -/

/-- A JavaScript value as the code meets it: a JSON payload value, `undefined`,
`NaN`, or one of the built-in array methods read as a property. Numbers are
integer valued; the code does no arithmetic beyond `length > 0` and the default `0`. -/
inductive JSVal where
  | undefined
  | null
  | bool (b : Bool)
  | num (n : Int)
  | nan
  | str (s : String)
  | arr (xs : List JSVal)
  | obj (fields : List (String × JSVal))
  | func (name : String)
  deriving Inhabited

namespace JSVal

/-- The test `v == null` of optional chaining and of `??`. -/
def nullish : JSVal → Bool
  | undefined => true
  | null => true
  | _ => false

/-- ToBoolean. -/
def truthy : JSVal → Bool
  | undefined => false
  | null => false
  | bool b => b
  | num n => n != 0
  | nan => false
  | str s => s != ""
  | arr _ => true
  | obj _ => true
  | func _ => true

/-- Number of UTF-16 code units of a string (`s.length` in JavaScript). -/
def utf16Length (s : String) : Nat :=
  (s.data.map (fun c => if c.val < 0x10000 then 1 else 2)).sum

/-- Property read `v.k` for a named key. `none` is the `TypeError` raised when `v` is
`undefined` or `null`. Objects answer with their own properties, arrays and strings
with `length`, arrays also with the built-in `map` and `values`; this is exact for the
property names the program reads. -/
def get : JSVal → String → Option JSVal
  | undefined, _ => none
  | null, _ => none
  | obj fields, k => some ((fields.lookup k).getD undefined)
  | arr xs, k =>
    some (if k = "length" then num xs.length
          else if k = "map" ∨ k = "values" then func k
          else undefined)
  | str s, k => some (if k = "length" then num (utf16Length s) else undefined)
  | func name, k =>
    some (if k = "name" then str name
          else if k = "length" then num (if name = "map" then 1 else 0)
          else undefined)
  | _, _ => some undefined

/-- Index read `v[0]`. `none` is the `TypeError` raised when `v` is `undefined` or
`null`. A string answers with its first character; this is the value JavaScript gives
when that character is in the Basic Multilingual Plane. For a first character outside
it JavaScript gives the leading surrogate alone, which a `String` cannot hold, and the
model departs from the code there; no payload field the code indexes is a string in
the theorems below. -/
def at0 : JSVal → Option JSVal
  | undefined => none
  | null => none
  | arr xs => some (xs.head?.getD undefined)
  | obj fields => some ((fields.lookup "0").getD undefined)
  | str s =>
    some (match s.data with
          | [] => undefined
          | c :: _ => str (String.singleton c))
  | _ => some undefined

/-- Optional chain `v?.rest`: a nullish `v` short-circuits the whole rest of the chain
to `undefined`. -/
def opt (v : JSVal) (rest : JSVal → Option JSVal) : Option JSVal :=
  if v.nullish then some undefined else rest v

/-- Lazy disjunction `a || b` where `b` may throw. -/
def orElse (a : JSVal) (b : Option JSVal) : Option JSVal :=
  if a.truthy then some a else b

/-- Nullish coalescing `a ?? b` where `b` may throw. -/
def coalesce (a : JSVal) (b : Option JSVal) : Option JSVal :=
  if a.nullish then b else some a

/-- The values a `for ... of` loop visits: the elements of an array, the characters of
a string; `none` is the `TypeError` for a value that is not iterable. -/
def iterate : JSVal → Option (List JSVal)
  | arr xs => some xs
  | str s => some (s.data.map (fun c => str (String.singleton c)))
  | _ => none

end JSVal

/-- Monadic map over a list, left to right, stopping at the first throw
(`Array.prototype.map` with a callback that may throw). -/
def mapOpt {α β : Type} (f : α → Option β) : List α → Option (List β)
  | [] => some []
  | a :: as =>
    match f a with
    | none => none
    | some b =>
      match mapOpt f as with
      | none => none
      | some bs => some (b :: bs)

/-! ## Canonical model (`src/class/Product.js`) -/

/-- One `{name, value}` entry of `selectOptions`. -/
structure SelectOption where
  name : JSVal
  value : JSVal

/-- The object built by the callback of `transformVariant`. -/
structure Variant where
  legacyResourceId : JSVal
  inventoryQuantity : JSVal
  selectOptions : List SelectOption
  displayName : JSVal
  price : JSVal

/-- The fields set by the `Product` constructor. -/
structure Product where
  external_id : JSVal
  product_id : String
  sku : JSVal
  image : JSVal
  name : JSVal
  short_description : JSVal
  long_description : JSVal
  price : JSVal
  variants : List Variant

/-- The callback `option => ({name: option.name || '', value: option?.values[0] || ''})`
(Product.js lines 34-39). -/
def selectOption (option : JSVal) : Option SelectOption := do
  let n ← option.get "name"
  let name := if n.truthy then n else JSVal.str ""
  let v ← option.opt (fun o => do
    let values ← o.get "values"
    values.at0)
  let value := if v.truthy then v else JSVal.str ""
  pure { name := name, value := value }

/-- The call `options.map(...)`: only an array has `map`. -/
def selectOptions (options : JSVal) : Option (List SelectOption) :=
  match options with
  | JSVal.arr os => mapOpt selectOption os
  | _ => none

/-- The chain `variant?.sellers[0]?.commertialOffer?.<field>` (Product.js lines 33, 41). -/
def sellerOffer (variant : JSVal) (field : String) : Option JSVal :=
  variant.opt (fun v => do
    let sellers ← v.get "sellers"
    let s0 ← sellers.at0
    s0.opt (fun s => do
      let offer ← s.get "commertialOffer"
      offer.opt (fun o => o.get field)))

/-- The callback of `variant.map` in `transformVariant` (Product.js lines 30-43). -/
def transformOne (options : JSVal) (variant : JSVal) : Option Variant := do
  let id ← variant.get "id"
  let legacy ← id.orElse (variant.get "itemId")
  let iq ← variant.get "inventory_quantity"
  let inv0 ← iq.coalesce (sellerOffer variant "AvailableQuantity")
  let inv ← inv0.coalesce (some (JSVal.num 0))
  let sel ← selectOptions options
  let title ← variant.get "title"
  let dn0 ← title.orElse (variant.get "name")
  let dn ← dn0.orElse (some (JSVal.str ""))
  let p ← variant.get "price"
  let p0 ← p.orElse (sellerOffer variant "Price")
  let price ← p0.orElse (some (JSVal.num 0))
  pure { legacyResourceId := legacy, inventoryQuantity := inv, selectOptions := sel,
         displayName := dn, price := price }

/-- The function `transformVariant(variant, options)` (Product.js lines 29-44): `variant.map` exists
only on an array. -/
def transformVariant (variant options : JSVal) : Option (List Variant) :=
  match variant with
  | JSVal.arr vs => mapOpt (transformOne options) vs
  | _ => none

/-- The chain `info.title || info.name || info.productName || ''`. -/
def titleOf (info : JSVal) : Option JSVal := do
  let t ← info.get "title"
  let t1 ← t.orElse (info.get "name")
  let t2 ← t1.orElse (info.get "productName")
  t2.orElse (some (JSVal.str ""))

/-- The expression `info?.image?.src || info.items[0]?.images[0]?.imageUrl || ''`
(Product.js line 8). -/
def productImage (info : JSVal) : Option JSVal := do
  let src ← info.opt (fun i => do
    let image ← i.get "image"
    image.opt (fun im => im.get "src"))
  let img ← src.orElse (do
    let items ← info.get "items"
    let i0 ← items.at0
    i0.opt (fun it => do
      let images ← it.get "images"
      let im0 ← images.at0
      im0.opt (fun im => im.get "imageUrl")))
  img.orElse (some (JSVal.str ""))

/-- The constructor `new Product(info)` (Product.js lines 4-14); `uuid` is the value
returned by its call of `uuidv4()`. `none` is a `TypeError`. -/
def Product.new (uuid : String) (info : JSVal) : Option Product := do
  let id ← info.get "id"
  let external_id ← id.orElse (info.get "productId")
  let sku ← id.orElse (info.get "productId")
  let image ← productImage info
  let name ← titleOf info
  let short_description ← titleOf info
  let long_description ← titleOf info
  let p ← info.get "price"
  let price ← p.orElse (some (JSVal.num 0))
  let vs ← info.get "variants"
  let vs1 ← vs.orElse (info.get "items")
  let vs2 ← vs1.orElse (some (JSVal.arr []))
  let os ← info.get "options"
  let os1 ← os.orElse (some (JSVal.arr []))
  let variants ← transformVariant vs2 os1
  pure { external_id := external_id, product_id := uuid, sku := sku, image := image,
         name := name, short_description := short_description,
         long_description := long_description, price := price, variants := variants }

/-! ## Store gateway and platform adapter -/

/-- A value bound to a placeholder of a statement: a JavaScript value passed as it is,
or the result of `Number(v)`, `JSON.stringify(v)` or `new Date()`. -/
inductive Param where
  | val (v : JSVal)
  | number (v : JSVal)
  | json (v : JSVal)
  | date (t : Nat)

/-- A statement sent to the pool: the lookup of `getProductByExternalId` with its
parameter and scope, or the `INSERT` of `insertProduct` with its parameter list. -/
inductive Op where
  | select (id : JSVal) (init : Bool)
  | insert (data : List Param)

/-- An insert statement. -/
def Op.isInsert : Op → Bool
  | Op.insert _ => true
  | Op.select _ _ => false

/-- An error raised to the caller: a JavaScript `TypeError`, or an error of the store. -/
inductive Err where
  | typeError
  | storage (msg : String)
  deriving DecidableEq

/-- What the repository takes from outside `src/`: the two constants of
`CompanyPrefixEnum`, the stream of `uuidv4()` results, the clock read by `new Date()`,
the text the driver sends for a bound value that is neither nullish, a string nor a
boolean, the comparison `v > 0` for a string or array operand, and the store's
failures (connectivity, constraint violation) as a function of the statements sent so
far and the statement at hand. -/
structure Env where
  vtex : String
  shopify : String
  uuidv4 : Nat → String
  now : Nat → Nat
  render : Param → String
  coerceGtZero : JSVal → Bool
  storeError : List Op → Op → Option String

/-- The text the driver binds for a parameter; `none` is SQL `NULL` (`undefined` and
`null` are both bound as `NULL`, `JSON.stringify` of `undefined` or of a function is
`undefined`). -/
def pgText (env : Env) : Param → Option String
  | Param.val JSVal.undefined => none
  | Param.val JSVal.null => none
  | Param.val (JSVal.str s) => some s
  | Param.val (JSVal.bool b) => some (if b then "true" else "false")
  | Param.json JSVal.undefined => none
  | Param.json (JSVal.func _) => none
  | p => some (env.render p)

/-- A row of the `products` table (migration `20231119202208-db-products.js`): the
thirteen columns in the order of the `INSERT`, each the text of the stored value, `none`
for `NULL`; the primary key `product_id` does not allow `NULL`. -/
structure Row where
  product_id : String
  parent_id : Option String
  init : Option String
  external_id : Option String
  search_text : Option String
  name : Option String
  price : Option String
  image : Option String
  json_object : Option String
  created_at : Option String
  update_at : Option String
  sku : Option String
  store_product_id : Option String
  deriving DecidableEq

/-- The row an `INSERT ... VALUES ($1, ..., $13)` stores for a parameter list; `none`
when the list does not supply thirteen values or the primary key is `NULL`. -/
def bindRow (env : Env) : List Param → Option Row
  | [p1, p2, p3, p4, p5, p6, p7, p8, p9, p10, p11, p12, p13] =>
    match pgText env p1 with
    | none => none
    | some pid =>
      some { product_id := pid, parent_id := pgText env p2, init := pgText env p3,
             external_id := pgText env p4, search_text := pgText env p5,
             name := pgText env p6, price := pgText env p7, image := pgText env p8,
             json_object := pgText env p9, created_at := pgText env p10,
             update_at := pgText env p11, sku := pgText env p12,
             store_product_id := pgText env p13 }
  | _ => none

/-- The state the reconciliation runs in: the table in insertion order, the statements
sent to the pool so far, and the number of `uuidv4()` and `new Date()` readings taken. -/
structure World where
  rows : List Row
  log : List Op
  tick : Nat

/-- The outcome of an awaited call: a value or a raised error, with the state reached. -/
inductive Res (α : Type) where
  | ok (a : α) (w : World)
  | err (e : Err) (w : World)

/-- The state an outcome leaves behind. -/
def Res.world {α : Type} : Res α → World
  | Res.ok _ w => w
  | Res.err _ w => w

/-- The error of an outcome, if it raised. -/
def Res.error {α : Type} : Res α → Option Err
  | Res.ok _ _ => none
  | Res.err e _ => some e

/-- The `WHERE` clause of `getProductByExternalId` (products.js line 124):
`external_id = $1 AND parent_id IS NULL` for `init`, `IS NOT NULL` otherwise. An
equality with `NULL` on either side selects nothing. -/
def matchesLookup (key : Option String) (init : Bool) (r : Row) : Bool :=
  (match key, r.external_id with
   | some k, some e => k == e
   | _, _ => false)
  && (if init then r.parent_id.isNone else r.parent_id.isSome)

/-- The function `getProductByExternalId(id, init)` (products.js lines 123-127): `rows[0]` of the
selection, `none` for `undefined`. -/
def getProductByExternalId (env : Env) (id : JSVal) (init : Bool) (w : World) :
    Res (Option Row) :=
  let op := Op.select id init
  let w1 : World := { w with log := w.log ++ [op] }
  match env.storeError w.log op with
  | some msg => Res.err (Err.storage msg) w1
  | none => Res.ok (w.rows.find? (matchesLookup (pgText env (Param.val id)) init)) w1

/-- The chain `x[0]?.images[0]?.imageUrl` applied to the value `x` of `product.items`
(utils.js line 44). -/
def firstItemImage (items : JSVal) : Option JSVal := do
  let i0 ← items.at0
  i0.opt (fun it => do
    let images ← it.get "images"
    let im0 ← images.at0
    im0.opt (fun im => im.get "imageUrl"))

/-- The function `prepareData(product, type, children, parent_id, image)` (utils.js lines 17-91).
The readings `uuidv4()`, `new Date()`, `new Date()` are the entries `tick`, `tick + 1`,
`tick + 2` of the environment's streams. `none` is a `TypeError`. -/
def prepareData (env : Env) (tick : Nat) (product : JSVal) (type : String)
    (children : Bool) (parent_id image : JSVal) : Option (List Param) :=
  let uuid := Param.val (JSVal.str (env.uuidv4 tick))
  let d1 := Param.date (env.now (tick + 1))
  let d2 := Param.date (env.now (tick + 2))
  if type = env.vtex then
    if children then do
      let itemId ← product.get "itemId"
      let name ← product.get "name"
      let sellers ← product.get "sellers"
      let s0 ← sellers.at0
      let price ← s0.opt (fun s => do
        let offer ← s.get "commertialOffer"
        offer.opt (fun o => o.get "Price"))
      let images ← product.get "images"
      let im0 ← images.at0
      let img ← im0.opt (fun im => im.get "imageUrl")
      pure [uuid, Param.val parent_id, Param.val (JSVal.bool false), Param.val itemId,
            Param.val name, Param.val name, Param.number price, Param.val img,
            Param.json product, d1, d2, Param.val JSVal.null, Param.val itemId]
    else do
      let productId ← product.get "productId"
      let productName ← product.get "productName"
      let items ← product.get "items"
      let img ← firstItemImage items
      pure [uuid, Param.val JSVal.null, Param.val (JSVal.bool true), Param.val productId,
            Param.val productName, Param.val productName, Param.val JSVal.null,
            Param.val img, Param.json product, d1, d2, Param.val JSVal.null,
            Param.val productId]
  else if type = env.shopify then
    if children then do
      let id ← product.get "id"
      let title ← product.get "title"
      let price ← product.get "price"
      let sku ← product.get "sku"
      pure [uuid, Param.val parent_id, Param.val (JSVal.bool false), Param.val id,
            Param.val title, Param.val title, Param.number price, Param.val image,
            Param.json product, d1, d2, Param.val sku, Param.val id]
    else do
      let id ← product.get "id"
      let title ← product.get "title"
      let src ← product.opt (fun p => do
        let im ← p.get "image"
        im.opt (fun i => i.get "src"))
      pure [uuid, Param.val JSVal.null, Param.val (JSVal.bool true), Param.val id,
            Param.val title, Param.val title, Param.val JSVal.null, Param.val src,
            Param.json product, d1, d2, Param.val JSVal.null, Param.val id]
  else
    some []

/-- The function `insertProduct(product, prefix, children, parent_id, image)` (products.js lines
191-199): builds the parameter list and sends the `INSERT`. The store rejects the
statement when it reports a failure or cannot bind the list to the thirteen columns;
otherwise the row is appended. -/
def insertProduct (env : Env) (product : JSVal) (pfx : String) (children : Bool)
    (parent_id image : JSVal) (w : World) : Res Unit :=
  match prepareData env w.tick product pfx children parent_id image with
  | none => Res.err Err.typeError { w with tick := w.tick + 3 }
  | some data =>
    let op := Op.insert data
    let w1 : World := { w with log := w.log ++ [op], tick := w.tick + 3 }
    match env.storeError w.log op with
    | some msg => Res.err (Err.storage msg) w1
    | none =>
      match bindRow env data with
      | none => Res.err (Err.storage "INSERT rejected: the parameters do not bind") w1
      | some r => Res.ok () { w1 with rows := w.rows ++ [r] }

/-- The value of `fatherItem ? fatherItem.product_id : null` (products.js line 170). -/
def fatherId : Option Row → JSVal
  | some f => JSVal.str f.product_id
  | none => JSVal.null

/-- The value of `fatherItem?.image || ''` (products.js line 171). -/
def fatherImage : Option Row → JSVal
  | some f =>
    match f.image with
    | some s => if s != "" then JSVal.str s else JSVal.str ""
    | none => JSVal.str ""
  | none => JSVal.str ""

/-- The value of `variant.id || variant.itemId` (products.js line 165); `none` is the
`TypeError` for a nullish `variant`. -/
def childKey (variant : JSVal) : Option JSVal := do
  let id ← variant.get "id"
  id.orElse (variant.get "itemId")

/-- The loop `for (let variant of variants)` of `processChildren` (products.js lines
164-173) over the values still to visit. -/
def processChildrenLoop (env : Env) (fatherItem : Option Row) (pfx : String) :
    List JSVal → World → Res Unit
  | [], w => Res.ok () w
  | variant :: rest, w =>
    match childKey variant with
    | none => Res.err Err.typeError w
    | some id =>
      match getProductByExternalId env id false w with
      | Res.err e w1 => Res.err e w1
      | Res.ok (some _) w1 => processChildrenLoop env fatherItem pfx rest w1
      | Res.ok none w1 =>
        match insertProduct env variant pfx true (fatherId fatherItem)
            (fatherImage fatherItem) w1 with
        | Res.err e w2 => Res.err e w2
        | Res.ok _ w2 => processChildrenLoop env fatherItem pfx rest w2

/-- The function `processChildren(variants, prefix, external_id)` (products.js lines 162-174). -/
def processChildren (env : Env) (variants : JSVal) (pfx : String) (external_id : JSVal)
    (w : World) : Res Unit :=
  match getProductByExternalId env external_id true w with
  | Res.err e w1 => Res.err e w1
  | Res.ok fatherItem w1 =>
    match variants.iterate with
    | none => Res.err Err.typeError w1
    | some vs => processChildrenLoop env fatherItem pfx vs w1

/-- The value of `product?.productId || product?.id` (products.js lines 139, 147). -/
def lookupKey (product : JSVal) : JSVal :=
  let a := if product.nullish then JSVal.undefined
           else ((product.get "productId").getD JSVal.undefined)
  if a.truthy then a
  else if product.nullish then JSVal.undefined
  else ((product.get "id").getD JSVal.undefined)

/-- The value of `product?.items || product?.variants` (products.js line 145). -/
def childList (product : JSVal) : JSVal :=
  let a := if product.nullish then JSVal.undefined
           else ((product.get "items").getD JSVal.undefined)
  if a.truthy then a
  else if product.nullish then JSVal.undefined
  else ((product.get "variants").getD JSVal.undefined)

/-- The comparison `v > 0`. -/
def gtZero (env : Env) : JSVal → Bool
  | JSVal.num n => decide (0 < n)
  | JSVal.bool b => b
  | JSVal.str s => env.coerceGtZero (JSVal.str s)
  | JSVal.arr xs => env.coerceGtZero (JSVal.arr xs)
  | _ => false

/-- The test `items && items.length > 0` (products.js line 146). -/
def hasChildren (env : Env) (items : JSVal) : Bool :=
  items.truthy && gtZero env ((items.get "length").getD JSVal.undefined)

/-- The part of the loop body of `processProducts` after the root step (products.js
lines 145-148). -/
def childrenStep (env : Env) (product : JSVal) (pfx : String) (w : World) : Res Unit :=
  if hasChildren env (childList product) then
    processChildren env (childList product) pfx (lookupKey product) w
  else Res.ok () w

/-- The branch on `existingProduct` in the loop body of `processProducts` (products.js
lines 140-144): nothing for a product that was found, `insertProduct(product, prefix)`
otherwise. -/
def rootStep (env : Env) (product : JSVal) (pfx : String) (existingProduct : Option Row)
    (w : World) : Res Unit :=
  match existingProduct with
  | some _ => Res.ok () w
  | none => insertProduct env product pfx false JSVal.null (JSVal.str "") w

/-- The function `processProducts(products, prefix)` (products.js lines 137-150). -/
def processProducts (env : Env) (pfx : String) : List JSVal → World → Res Unit
  | [], w => Res.ok () w
  | product :: rest, w =>
    match getProductByExternalId env (lookupKey product) true w with
    | Res.err e w1 => Res.err e w1
    | Res.ok existingProduct w1 =>
      match rootStep env product pfx existingProduct w1 with
      | Res.err e w2 => Res.err e w2
      | Res.ok _ w2 =>
        match childrenStep env product pfx w2 with
        | Res.err e w3 => Res.err e w3
        | Res.ok _ w3 => processProducts env pfx rest w3

/-- The empty table before any statement. -/
def World.empty : World := { rows := [], log := [], tick := 0 }

/-- A sample environment: tags `"vtex"` and `"shopify"`, the identifier `"u"` followed by
`n` letters `i` as the `n`-th reading, every other bound value rendered as `"?"`, and a
store that never fails. -/
def Env.sample : Env :=
  { vtex := "vtex", shopify := "shopify",
    uuidv4 := fun n => "u" ++ String.mk (List.replicate n 'i'),
    now := fun n => n,
    render := fun _ => "?",
    coerceGtZero := fun _ => false,
    storeError := fun _ _ => none }

/-! ## Sample payloads -/

/-- A storefront product without an image and without an `items` field:
`{id: "P1", title: "T", variants: []}`. -/
def rawNoImage : JSVal :=
  JSVal.obj [("id", JSVal.str "P1"), ("title", JSVal.str "T"), ("variants", JSVal.arr [])]

/-- The declared options `[{name: "Color"}, {name: "Size", values: ["M"]}]`. -/
def optionsColorSize : JSVal :=
  JSVal.arr [JSVal.obj [("name", JSVal.str "Color")],
             JSVal.obj [("name", JSVal.str "Size"), ("values", JSVal.arr [JSVal.str "M"])]]

/-- Two raw variants with every field of their own:
`{id, title, price: 5, inventory_quantity: 1}` for `"V1"` and `"V2"`. -/
def twoVariants : JSVal :=
  JSVal.arr [JSVal.obj [("id", JSVal.str "V1"), ("title", JSVal.str "one"),
                        ("price", JSVal.num 5), ("inventory_quantity", JSVal.num 1)],
             JSVal.obj [("id", JSVal.str "V2"), ("title", JSVal.str "two"),
                        ("price", JSVal.num 5), ("inventory_quantity", JSVal.num 1)]]

/-- A catalog item without a `sellers` list: `{itemId: "I1", name: "n", images: []}`. -/
def itemNoSellers : JSVal :=
  JSVal.obj [("itemId", JSVal.str "I1"), ("name", JSVal.str "n"), ("images", JSVal.arr [])]

/-- A catalog product without an `items` list: `{productId: "P1", productName: "n"}`. -/
def productNoItems : JSVal :=
  JSVal.obj [("productId", JSVal.str "P1"), ("productName", JSVal.str "n")]

/-! ## Predicates used in the statements -/

/-- The state `w2` extends `w`: its table is the table of `w` followed by rows that all
satisfy `P`, its log is the log of `w` followed by statements that all satisfy `Q`. -/
def Grows (P : Row → Prop) (Q : Op → Prop) (w w2 : World) : Prop :=
  ∃ added ops, w2.rows = w.rows ++ added ∧ w2.log = w.log ++ ops
    ∧ (∀ r ∈ added, P r) ∧ (∀ op ∈ ops, Q op)

/-- The payload field the adapter stores as `external_id` (utils.js lines 24, 40, 59,
75): `itemId` for a catalog child, `productId` for a catalog root, `id` on the
storefront platform. -/
def storedId (env : Env) (pfx : String) (children : Bool) (product : JSVal) : JSVal :=
  if pfx = env.vtex then
    if children then (product.get "itemId").getD JSVal.undefined
    else (product.get "productId").getD JSVal.undefined
  else (product.get "id").getD JSVal.undefined

/-- The states reached from the empty table by calls of `processProducts`, each with
any tag and any list, whether the call returns or raises. -/
inductive Reachable (env : Env) : World → Prop where
  | empty : Reachable env World.empty
  | reconcile (pfx : String) (ps : List JSVal) (w : World) :
      Reachable env w → Reachable env (processProducts env pfx ps w).world

/-- A lookup or an `INSERT` of the empty parameter list. -/
def selectOrEmptyInsert : Op → Prop
  | Op.select _ _ => True
  | Op.insert data => data = []

/-- A sample environment whose store accepts one `INSERT` and fails every later one with
`"connection lost"`. -/
def Env.flaky : Env :=
  { Env.sample with
    storeError := fun log op =>
      if op.isInsert && log.any Op.isInsert then some "connection lost" else none }

/-- The storefront product `{id: <id>, title: "T"}`. -/
def plainProduct (id : String) : JSVal :=
  JSVal.obj [("id", JSVal.str id), ("title", JSVal.str "T")]

/-- The storefront product `{id: "P1", title: "T", variants: [{id: "V1"}, {id: "V2"}]}`. -/
def productWithVariants : JSVal :=
  JSVal.obj [("id", JSVal.str "P1"), ("title", JSVal.str "T"),
             ("variants", JSVal.arr [JSVal.obj [("id", JSVal.str "V1")],
                                     JSVal.obj [("id", JSVal.str "V2")]])]

/-- A storefront payload without an id: `{title: "T", variants: [{id: "X"}]}`. -/
def productNoId : JSVal :=
  JSVal.obj [("title", JSVal.str "T"),
             ("variants", JSVal.arr [JSVal.obj [("id", JSVal.str "X")]])]

/-- The storefront product `{id: "P2", title: "T", variants: [{id: "V1"}]}`. -/
def secondProduct : JSVal :=
  JSVal.obj [("id", JSVal.str "P2"), ("title", JSVal.str "T"),
             ("variants", JSVal.arr [JSVal.obj [("id", JSVal.str "V1")]])]

/-- The table holding the root row of `"P1"` only, as `processProducts` leaves it after
the list `[{id: "P1", title: "T"}]` on the empty table. -/
def worldP1 : World :=
  (processProducts Env.sample "shopify" [plainProduct "P1"] World.empty).world

/-- The root row stored for `{id: "P1", title: "T"}` in the sample environment. -/
def rowP1 : Row :=
  { product_id := "u", parent_id := none, init := some "true", external_id := some "P1",
    search_text := some "T", name := some "T", price := none, image := none,
    json_object := some "?", created_at := some "?", update_at := some "?", sku := none,
    store_product_id := some "P1" }

/-- The table after `processProducts` has run on `[{title: "T", variants: [{id: "X"}]}]`
from the empty table. -/
def worldNoId : World :=
  (processProducts Env.sample "shopify" [productNoId] World.empty).world

/-- The row stored for the variant `{id: "X"}` of a product whose root lookup failed. -/
def rowOrphanX : Row :=
  { product_id := "uiii", parent_id := none, init := some "false", external_id := some "X",
    search_text := none, name := none, price := some "?", image := some "",
    json_object := some "?", created_at := some "?", update_at := some "?", sku := none,
    store_product_id := some "X" }

/-- The table after `processProducts` has run on
`[{id: "P1", title: "T", variants: [{id: "V1"}, {id: "V2"}]}]` from the empty table. -/
def worldVariants : World :=
  (processProducts Env.sample "shopify" [productWithVariants] World.empty).world

/-- The row stored for the variant `{id: "V1"}` of `"P1"`. -/
def rowV1 : Row :=
  { product_id := "uiii", parent_id := some "u", init := some "false",
    external_id := some "V1", search_text := none, name := none, price := some "?",
    image := some "", json_object := some "?", created_at := some "?",
    update_at := some "?", sku := none, store_product_id := some "V1" }

/-- The two values are bound as the same text, and that text is not `NULL`. -/
def sameKey (env : Env) (a b : JSVal) : Bool :=
  match pgText env (Param.val a), pgText env (Param.val b) with
  | some x, some y => x == y
  | _, _ => false

/-- The ids of a product are present and consistent for the platform: the value the
root lookup uses (`productId || id`) and the field the adapter stores as `external_id`
are the same text, not `NULL`; and, when the product has children to process, the same
holds for each variant between `id || itemId` and the field the adapter stores. -/
def wellKeyed (env : Env) (pfx : String) (p : JSVal) : Bool :=
  sameKey env (lookupKey p) (storedId env pfx false p)
  && (if hasChildren env (childList p) then
        match (childList p).iterate with
        | some vs =>
          vs.all (fun v =>
            match childKey v with
            | some id => sameKey env id (storedId env pfx true v)
            | none => true)
        | none => true
      else true)

/-- The states reached from the empty table by calls of `processProducts` on lists whose
products all have present, platform-consistent ids. -/
inductive KeyedReachable (env : Env) : World → Prop where
  | empty : KeyedReachable env World.empty
  | reconcile (pfx : String) (ps : List JSVal) (w : World) :
      KeyedReachable env w → (∀ p ∈ ps, wellKeyed env pfx p = true) →
      KeyedReachable env (processProducts env pfx ps w).world

/-- Every row has an `external_id` and is either a root (`init` true, no parent) or a
child (`init` false, with a parent), and no two rows of the same scope share an
`external_id`. -/
def RowsKeyed (rows : List Row) : Prop :=
  (∀ r ∈ rows, r.external_id ≠ none
    ∧ ((r.init = some "true" ∧ r.parent_id = none)
       ∨ (r.init = some "false" ∧ r.parent_id ≠ none)))
  ∧ rows.Pairwise (fun a b =>
      a.parent_id.isNone = b.parent_id.isNone → a.external_id ≠ b.external_id)

/-- No two rows with the same `init` flag share an `external_id`. -/
def UniquePerScope (rows : List Row) : Prop :=
  rows.Pairwise (fun a b => a.init = b.init → a.external_id ≠ b.external_id)

/-- The lookup of `id` in the given scope selects a row of the table. -/
def found (env : Env) (rows : List Row) (id : JSVal) (init : Bool) : Bool :=
  (rows.find? (matchesLookup (pgText env (Param.val id)) init)).isSome

/-- The table after `processProducts` has run twice on
`[{title: "T", variants: [{id: "X"}]}]` from the empty table. -/
def worldNoIdTwice : World :=
  (processProducts Env.sample "shopify" [productNoId] worldNoId).world

/-- Everything the loop body of `processProducts` looks up for the product is in the
table: the root lookup selects a row, and, when the product has children to process,
they can be iterated and each variant has a lookup value whose child-scope lookup
selects a row. -/
def settled (env : Env) (rows : List Row) (p : JSVal) : Bool :=
  found env rows (lookupKey p) true
  && (if hasChildren env (childList p) then
        match (childList p).iterate with
        | some vs =>
          vs.all (fun v =>
            match childKey v with
            | some id => found env rows id false
            | none => false)
        | none => false
      else true)

/-- A storefront payload that carries only a title: `{title: "T"}`. -/
def productTitleOnly : JSVal :=
  JSVal.obj [("title", JSVal.str "T")]

/-- The table after `processProducts` has run on `[{title: "T"}]` from the empty table. -/
def worldTitleOnly : World :=
  (processProducts Env.sample "shopify" [productTitleOnly] World.empty).world

/-! ## Field readings used in the statements of the row mappings -/

/-- The value of `v.k` for a payload `v` that is not nullish (`undefined` for a nullish
one, where the read would raise). -/
def JSVal.field (v : JSVal) (k : String) : JSVal :=
  (v.get k).getD JSVal.undefined

/-- The value of the chain `product?.image?.src` (utils.js line 79): the top-level image
source, `undefined` when there is no image object. -/
def imageSrc (product : JSVal) : JSVal :=
  if product.nullish then JSVal.undefined
  else if (product.field "image").nullish then JSVal.undefined
  else (product.field "image").field "src"

/-- The chain `product.images[0]?.imageUrl` (utils.js line 28): the first image of the
item itself. `none` is a `TypeError`. -/
def ownImage (item : JSVal) : Option JSVal := do
  let images ← item.get "images"
  let im0 ← images.at0
  im0.opt (fun im => im.get "imageUrl")

/-- The chain `product.sellers[0]?.commertialOffer?.Price` (utils.js line 27): the price
of the nested commercial offer. `none` is a `TypeError`. -/
def offerPrice (item : JSVal) : Option JSVal := do
  let sellers ← item.get "sellers"
  let s0 ← sellers.at0
  s0.opt (fun s => do
    let offer ← s.get "commertialOffer"
    offer.opt (fun o => o.get "Price"))

/-- The storefront product `{id: "P1", title: "T", image: {src: "img"}}`. -/
def productWithImage : JSVal :=
  JSVal.obj [("id", JSVal.str "P1"), ("title", JSVal.str "T"),
             ("image", JSVal.obj [("src", JSVal.str "img")])]

/-- The root row stored for `{id: "P1", title: "T", image: {src: "img"}}` in the sample
environment. -/
def rowWithImage : Row :=
  { product_id := "u", parent_id := none, init := some "true", external_id := some "P1",
    search_text := some "T", name := some "T", price := none, image := some "img",
    json_object := some "?", created_at := some "?", update_at := some "?", sku := none,
    store_product_id := some "P1" }

/-- The storefront variant `{id: "V1", title: "one", price: "5.00", sku: "S1"}`. -/
def variantWithSku : JSVal :=
  JSVal.obj [("id", JSVal.str "V1"), ("title", JSVal.str "one"),
             ("price", JSVal.str "5.00"), ("sku", JSVal.str "S1")]

/-- The catalog item `{itemId: <id>, name: "n", sellers: [], images: [{imageUrl: <img>}]}`. -/
def catalogItem (id img : String) : JSVal :=
  JSVal.obj [("itemId", JSVal.str id), ("name", JSVal.str "n"), ("sellers", JSVal.arr []),
             ("images", JSVal.arr [JSVal.obj [("imageUrl", JSVal.str img)]])]

/-- The catalog item `{itemId: <id>, name: "n", sellers: [], images: []}`, which has no
image of its own. -/
def catalogItemNoImage (id : String) : JSVal :=
  JSVal.obj [("itemId", JSVal.str id), ("name", JSVal.str "n"), ("sellers", JSVal.arr []),
             ("images", JSVal.arr [])]

/-- The catalog product `{productId: "P1", productName: "n", items: [V1, V2]}` whose items
`"V1"` and `"V2"` have the images `"img1"` and `"img2"`. -/
def catalogProduct : JSVal :=
  JSVal.obj [("productId", JSVal.str "P1"), ("productName", JSVal.str "n"),
             ("items", JSVal.arr [catalogItem "V1" "img1", catalogItem "V2" "img2"])]

/-- The catalog product `{productId: "P1", productName: "n", items: [V1, V2]}` whose item
`"V1"` has the image `"img1"` and whose item `"V2"` has no image. -/
def catalogProductBare : JSVal :=
  JSVal.obj [("productId", JSVal.str "P1"), ("productName", JSVal.str "n"),
             ("items", JSVal.arr [catalogItem "V1" "img1", catalogItemNoImage "V2"])]

/-- A catalog item without an `images` list: `{itemId: "V3", name: "n", sellers: []}`. -/
def itemNoImages : JSVal :=
  JSVal.obj [("itemId", JSVal.str "V3"), ("name", JSVal.str "n"), ("sellers", JSVal.arr [])]

/-- The table after `processProducts` has run on
`[{id: "P1", title: "T", image: {src: "img"}}]` from the empty table. -/
def worldWithImage : World :=
  (processProducts Env.sample "shopify" [productWithImage] World.empty).world

/-- The storefront product `{id: "P1", title: "T", variants: [{id: "V1"}]}`, which has
no image. -/
def productNoImageOneVariant : JSVal :=
  JSVal.obj [("id", JSVal.str "P1"), ("title", JSVal.str "T"),
             ("variants", JSVal.arr [JSVal.obj [("id", JSVal.str "V1")]])]

/-! ## API response (`getProductsPrefix`) -/

/-- The calls `new Product(product)` of `products.map(...)` (products.js lines 26-28),
left to right; the call for the value at position `i` takes the reading `tick + i` of
`uuidv4()`. `none` is a `TypeError` raised by one of the constructors. -/
def newProducts (env : Env) (tick : Nat) : List JSVal → Option (List Product)
  | [] => some []
  | product :: rest =>
    match Product.new (env.uuidv4 tick) product with
    | none => none
    | some p =>
      match newProducts env (tick + 1) rest with
      | none => none
      | some ps => some (p :: ps)

/-- The object returned by `getProductsPrefix` (products.js lines 30-37), with the two
fields of `result` side by side. -/
structure Response where
  success : Bool
  message : String
  count : Nat
  items : List Product

/-- The outcome of `getProductsPrefix`: the response, the error `'Store not found'` of
line 20, or an error raised by the reconciliation or by a `Product` constructor, each
with the state reached. -/
inductive ApiRes where
  | ok (r : Response) (w : World)
  | storeNotFound (w : World)
  | raised (e : Err) (w : World)

/-- The response of an outcome, if it returned. -/
def ApiRes.response : ApiRes → Option Response
  | ApiRes.ok r _ => some r
  | _ => none

/-- The error raised by the reconciliation or a constructor, if the outcome is one. -/
def ApiRes.raisedError : ApiRes → Option Err
  | ApiRes.raised e _ => some e
  | _ => none

/-- The function `getProductsPrefix(req, res)` (products.js lines 15-38). `storeConfig`
is the value of `CompanyPrefixEnum[prefix]` and `products` the list returned by the
platform client `ecommerces[prefix].getProducts`, both from outside `src/`. -/
def getProductsPrefix (env : Env) (storeConfig : JSVal) (products : List JSVal)
    (pfx : String) (w : World) : ApiRes :=
  if storeConfig.truthy then
    match processProducts env pfx products w with
    | Res.err e w1 => ApiRes.raised e w1
    | Res.ok _ w1 =>
      match newProducts env w1.tick products with
      | none => ApiRes.raised Err.typeError w1
      | some items =>
        ApiRes.ok { success := true, message := "OK", count := products.length,
                    items := items }
          { w1 with tick := w1.tick + products.length }
  else ApiRes.storeNotFound w

/-- The string value of a JavaScript string. -/
def JSVal.text : JSVal → Option String
  | JSVal.str s => some s
  | _ => none

/-- The integer value of a JavaScript number. -/
def JSVal.int : JSVal → Option Int
  | JSVal.num n => some n
  | _ => none

/-- A storefront product whose image is `null`, without price and without an `items`
field: `{id: "P2", title: "T", image: null, variants: []}`. -/
def rawNullImage : JSVal :=
  JSVal.obj [("id", JSVal.str "P2"), ("title", JSVal.str "T"), ("image", JSVal.null),
             ("variants", JSVal.arr [])]

/-- A catalog product with an empty `items` list and no price:
`{productId: "P3", productName: "N", items: []}`. -/
def rawEmptyItems : JSVal :=
  JSVal.obj [("productId", JSVal.str "P3"), ("productName", JSVal.str "N"),
             ("items", JSVal.arr [])]

/-- The fields of a canonical product other than the generated `product_id` and the
variants, as text: image, name, short and long description, and the price. -/
def Product.summary (p : Product) :
    Option String × Option String × Option String × Option String × Option Int :=
  (p.image.text, p.name.text, p.short_description.text, p.long_description.text,
   p.price.int)

/-- The canonical product with its generated `product_id` blanked. -/
def Product.withoutId (p : Product) : Product :=
  { p with product_id := "" }

/-- A storefront product with an empty `items` list and one variant:
`{id: "P1", title: "T", items: [], variants: [{id: "V1"}]}`. -/
def productEmptyItems : JSVal :=
  JSVal.obj [("id", JSVal.str "P1"), ("title", JSVal.str "T"), ("items", JSVal.arr []),
             ("variants", JSVal.arr [JSVal.obj [("id", JSVal.str "V1")]])]

/-- A list field that is absent (`undefined`), `null`, or the empty list. -/
def emptyOrAbsent : JSVal → Bool
  | JSVal.undefined => true
  | JSVal.null => true
  | JSVal.arr [] => true
  | _ => false

/-! ## Insert order -/

/-- What identifies a row in the order of insertion: its `init` flag and its
`external_id`. -/
def rowTag (r : Row) : Option String × Option String :=
  (r.init, r.external_id)

/-- The tag of the root row of a product: `init` true and the text of its lookup value. -/
def rootTag (env : Env) (p : JSVal) : Option String × Option String :=
  (some "true", pgText env (Param.val (lookupKey p)))

/-- The tag of the child row of a variant: `init` false and the text of its lookup
value. -/
def childTag (env : Env) (v : JSVal) : Option String × Option String :=
  (some "false", (childKey v).bind (fun id => pgText env (Param.val id)))

/-- The values the code visits for a product, computed with the code's own test and
extraction (`hasChildren`, `childList`): the values `processChildren` iterates, none
when it is not called. Used in the lemmas on the run, not in the statement of C17. -/
def childrenOf (env : Env) (p : JSVal) : List JSVal :=
  if hasChildren env (childList p) then ((childList p).iterate).getD [] else []

/-- The tags in the order the code visits them: products in input order, each root
followed by the values of `childrenOf`. Used in the lemmas on the run, not in the
statement of C17. -/
def preorder (env : Env) : List JSVal → List (Option String × Option String)
  | [] => []
  | p :: rest =>
    rootTag env p :: ((childrenOf env p).map (childTag env) ++ preorder env rest)

/-- Every row is a root (`init` true, no parent) or a child (`init` false, with a
parent). -/
def RowsShaped (rows : List Row) : Prop :=
  ∀ r ∈ rows, (r.init = some "true" ∧ r.parent_id = none)
    ∨ (r.init = some "false" ∧ r.parent_id ≠ none)

/-- The table after `processProducts` has run on
`[{productId: "P3", productName: "N", items: []}]` with the catalog tag from the empty
table: the root row of `"P3"` alone, which has no image. -/
def worldCatalogRoot : World :=
  (processProducts Env.sample "vtex" [rawEmptyItems] World.empty).world

/-- The root row stored for `{productId: "P3", productName: "N", items: []}` in the sample
environment. -/
def rowP3 : Row :=
  { product_id := "u", parent_id := none, init := some "true", external_id := some "P3",
    search_text := some "N", name := some "N", price := none, image := none,
    json_object := some "?", created_at := some "?", update_at := some "?", sku := none,
    store_product_id := some "P3" }

/-! ## Pre-order traversal of the input, from the payload alone -/

/-- A list field of a payload that is a list or is absent (`undefined` or `null`). -/
def listOrAbsent : JSVal → Bool
  | JSVal.undefined => true
  | JSVal.null => true
  | JSVal.arr _ => true
  | _ => false

/-- The elements of a list field; none for a field that is not a list. -/
def JSVal.elems : JSVal → List JSVal
  | JSVal.arr xs => xs
  | _ => []

/-- The variants of a product read as "the first non-empty of its two list fields":
the elements of `items` when there are any, the elements of `variants` otherwise. -/
def firstNonEmptyChildren (p : JSVal) : List JSVal :=
  match (p.field "items").elems with
  | [] => (p.field "variants").elems
  | x :: xs => x :: xs

/-- The variants of a product read as "the first list field that is present": the
elements of `items` when `items` is a list, empty or not, the elements of `variants`
otherwise. -/
def firstPresentChildren (p : JSVal) : List JSVal :=
  match p.field "items" with
  | JSVal.arr xs => xs
  | _ => (p.field "variants").elems

/-- The pre-order traversal of the input for a given reading of "the variants of a
product": products in input order, each root tag followed by the tags of its variants
in their input order. -/
def traversal (env : Env) (children : JSVal → List JSVal) :
    List JSVal → List (Option String × Option String)
  | [] => []
  | p :: rest =>
    rootTag env p :: ((children p).map (childTag env) ++ traversal env children rest)

/-! ## Canonical model: claims C2, C3 -/

/-- C2 (fails on the code): `new Product(raw)` raises a `TypeError` for the payload
`{id: "P1", title: "T", variants: []}`, which has no image and no `items` field: line 8
reads `info.items[0]` once `info?.image?.src` is undefined. -/
theorem C2_product_constructor_raises (uuid : String) :
    (Product.new uuid rawNoImage).isNone = true := by
  rfl

/-- C3 (fails on the code): for the declared options
`[{name: "Color"}, {name: "Size", values: ["M"]}]` and two variants `transformVariant`
raises a `TypeError` instead of giving `value: ''` for `Color`: `option?.values[0]`
indexes the missing `values`. With `values: []` declared the entry is
`{name: "Color", value: ""}`. -/
theorem C3_option_zipping_raises :
    (transformVariant twoVariants optionsColorSize).isNone = true
    ∧ (selectOption (JSVal.obj [("name", JSVal.str "Color")])).isNone = true
    ∧ ((selectOption (JSVal.obj [("name", JSVal.str "Color"), ("values", JSVal.arr [])])).map
        (fun o =>
          match o.name, o.value with
          | JSVal.str n, JSVal.str v => some (n, v)
          | _, _ => none)) = some (some ("Color", "")) := by
  decide

/-! ## Platform adapter: claims C9, C10 -/

/-- C9 (fails on the code): with the catalog tag `prepareData` raises a `TypeError` for a
child without a `sellers` list (`product.sellers[0]`) and for a root without an `items`
list (`product.items[0]`), whatever the other arguments. -/
theorem C9_prepareData_raises (env : Env) (tick : Nat) (parent_id image : JSVal) :
    prepareData env tick itemNoSellers env.vtex true parent_id image = none
    ∧ prepareData env tick productNoItems env.vtex false parent_id image = none := by
  constructor <;> simp [prepareData, itemNoSellers, productNoItems, JSVal.get, JSVal.at0,
    List.lookup, firstItemImage]

/-- A property read on a value that is not nullish returns. -/
theorem JSVal.get_isSome (v : JSVal) (k : String) (h : v.nullish = false) :
    ∃ x, v.get k = some x := by
  cases v <;> simp [JSVal.nullish] at h <;> simp [JSVal.get]

/-- With the storefront tag the adapter returns a list of thirteen values for every
payload that is not nullish, root or child. -/
theorem prepareData_shopify_returns (env : Env) (hne : env.shopify ≠ env.vtex)
    (tick : Nat) (product : JSVal) (children : Bool) (parent_id image : JSVal)
    (hobj : product.nullish = false) :
    ∃ data, prepareData env tick product env.shopify children parent_id image = some data
      ∧ data.length = 13 := by
  obtain ⟨id, hid⟩ := JSVal.get_isSome product "id" hobj
  obtain ⟨title, htitle⟩ := JSVal.get_isSome product "title" hobj
  obtain ⟨price, hprice⟩ := JSVal.get_isSome product "price" hobj
  obtain ⟨sku, hsku⟩ := JSVal.get_isSome product "sku" hobj
  obtain ⟨im, him⟩ := JSVal.get_isSome product "image" hobj
  unfold prepareData
  rw [if_neg hne, if_pos rfl]
  cases children
  · by_cases hn : im.nullish = true
    · simp [hid, htitle, him, JSVal.opt, hobj, hn]
    · obtain ⟨src, hsrc⟩ := JSVal.get_isSome im "src" (by simpa using hn)
      simp [hid, htitle, him, JSVal.opt, hobj, hn, hsrc]
  · simp [hid, htitle, hprice, hsku]

/-! ## Store gateway: basic facts -/

theorem Grows.refl (P : Row → Prop) (Q : Op → Prop) (w : World) : Grows P Q w w :=
  ⟨[], [], by simp, by simp, by simp, by simp⟩

theorem Grows.trans {P : Row → Prop} {Q : Op → Prop} {w1 w2 w3 : World}
    (h12 : Grows P Q w1 w2) (h23 : Grows P Q w2 w3) : Grows P Q w1 w3 := by
  obtain ⟨a1, o1, hr1, hl1, hp1, hq1⟩ := h12
  obtain ⟨a2, o2, hr2, hl2, hp2, hq2⟩ := h23
  refine ⟨a1 ++ a2, o1 ++ o2, ?_, ?_, ?_, ?_⟩
  · rw [hr2, hr1, List.append_assoc]
  · rw [hl2, hl1, List.append_assoc]
  · intro r hr
    rcases List.mem_append.mp hr with h | h
    · exact hp1 r h
    · exact hp2 r h
  · intro op hop
    rcases List.mem_append.mp hop with h | h
    · exact hq1 op h
    · exact hq2 op h

/-- A lookup leaves the table alone and logs its statement. -/
theorem getProductByExternalId_world (env : Env) (id : JSVal) (init : Bool) (w : World) :
    (getProductByExternalId env id init w).world
      = { w with log := w.log ++ [Op.select id init] } := by
  unfold getProductByExternalId
  cases h : env.storeError w.log (Op.select id init) <;> simp [h, Res.world]

/-- A lookup that returns gives the first row of the selection. -/
theorem getProductByExternalId_ok {env : Env} {id : JSVal} {init : Bool} {w w1 : World}
    {res : Option Row} (h : getProductByExternalId env id init w = Res.ok res w1) :
    res = w.rows.find? (matchesLookup (pgText env (Param.val id)) init)
    ∧ w1 = { w with log := w.log ++ [Op.select id init] }
    ∧ env.storeError w.log (Op.select id init) = none := by
  unfold getProductByExternalId at h
  cases hs : env.storeError w.log (Op.select id init) with
  | some msg => simp [hs] at h
  | none =>
    simp only [hs] at h
    injection h with h1 h2
    exact ⟨h1.symm, h2.symm, rfl⟩

/-- A lookup that raises has sent its statement and changed nothing else. -/
theorem getProductByExternalId_err {env : Env} {id : JSVal} {init : Bool} {w w1 : World}
    {e : Err} (h : getProductByExternalId env id init w = Res.err e w1) :
    w1 = { w with log := w.log ++ [Op.select id init] }
    ∧ ∃ msg, e = Err.storage msg ∧ env.storeError w.log (Op.select id init) = some msg := by
  unfold getProductByExternalId at h
  cases hs : env.storeError w.log (Op.select id init) with
  | none => simp [hs] at h
  | some msg =>
    simp only [hs] at h
    injection h with h1 h2
    exact ⟨h2.symm, msg, h1.symm, rfl⟩

/-- An insert that returns has appended the row bound from the adapter's list. -/
theorem insertProduct_ok {env : Env} {product : JSVal} {pfx : String} {children : Bool}
    {parent_id image : JSVal} {w w2 : World}
    (h : insertProduct env product pfx children parent_id image w = Res.ok () w2) :
    ∃ data r, prepareData env w.tick product pfx children parent_id image = some data
      ∧ bindRow env data = some r
      ∧ env.storeError w.log (Op.insert data) = none
      ∧ w2 = { rows := w.rows ++ [r], log := w.log ++ [Op.insert data], tick := w.tick + 3 } := by
  unfold insertProduct at h
  cases hd : prepareData env w.tick product pfx children parent_id image with
  | none => simp [hd] at h
  | some data =>
    simp only [hd] at h
    cases hs : env.storeError w.log (Op.insert data) with
    | some msg => simp [hs] at h
    | none =>
      simp only [hs] at h
      cases hb : bindRow env data with
      | none => simp [hb] at h
      | some r =>
        simp only [hb] at h
        injection h with _ h2
        exact ⟨data, r, rfl, hb, hs, h2.symm⟩

/-- An insert that raises has added no row; it has sent at most its own statement. -/
theorem insertProduct_err {env : Env} {product : JSVal} {pfx : String} {children : Bool}
    {parent_id image : JSVal} {w w2 : World} {e : Err}
    (h : insertProduct env product pfx children parent_id image w = Res.err e w2) :
    w2.rows = w.rows
    ∧ (w2.log = w.log
       ∨ ∃ data, prepareData env w.tick product pfx children parent_id image = some data
           ∧ w2.log = w.log ++ [Op.insert data]) := by
  unfold insertProduct at h
  cases hd : prepareData env w.tick product pfx children parent_id image with
  | none =>
    simp only [hd] at h
    injection h with _ h2
    subst h2
    exact ⟨rfl, Or.inl rfl⟩
  | some data =>
    simp only [hd] at h
    cases hs : env.storeError w.log (Op.insert data) with
    | some msg =>
      simp only [hs] at h
      injection h with _ h2
      subst h2
      exact ⟨rfl, Or.inr ⟨data, rfl, rfl⟩⟩
    | none =>
      simp only [hs] at h
      cases hb : bindRow env data with
      | some r => simp [hb] at h
      | none =>
        simp only [hb] at h
        injection h with _ h2
        subst h2
        exact ⟨rfl, Or.inr ⟨data, rfl, rfl⟩⟩

/-- Whatever its outcome, an insert extends the state by at most one row bound from the
adapter's list and at most one statement, the `INSERT` of that list. -/
theorem insertProduct_grows (env : Env) (product : JSVal) (pfx : String) (children : Bool)
    (parent_id image : JSVal) (w : World) (P : Row → Prop) (Q : Op → Prop)
    (hP : ∀ tick data r, prepareData env tick product pfx children parent_id image = some data →
      bindRow env data = some r → P r)
    (hQ : ∀ tick data, prepareData env tick product pfx children parent_id image = some data →
      Q (Op.insert data)) :
    Grows P Q w (insertProduct env product pfx children parent_id image w).world := by
  cases h : insertProduct env product pfx children parent_id image w with
  | ok a w2 =>
    obtain ⟨data, r, hd, hb, _, hw⟩ := insertProduct_ok h
    subst hw
    refine ⟨[r], [Op.insert data], rfl, rfl, ?_, ?_⟩
    · intro r1 hr1
      rw [List.mem_singleton] at hr1
      subst hr1
      exact hP _ _ _ hd hb
    · intro op hop
      rw [List.mem_singleton] at hop
      subst hop
      exact hQ _ _ hd
  | err e w2 =>
    obtain ⟨hr, hl⟩ := insertProduct_err h
    rcases hl with hl | ⟨data, hd, hl⟩
    · exact ⟨[], [], by simp [Res.world, hr], by simp [Res.world, hl], by simp, by simp⟩
    · refine ⟨[], [Op.insert data], by simp [Res.world, hr], by simp [Res.world, hl], by simp, ?_⟩
      intro op hop
      rw [List.mem_singleton] at hop
      subst hop
      exact hQ _ _ hd

/-- Whatever its outcome, a lookup extends the log by its statement only. -/
theorem getProductByExternalId_grows (env : Env) (id : JSVal) (init : Bool) (w : World)
    (P : Row → Prop) (Q : Op → Prop) (hQ : ∀ i b, Q (Op.select i b)) :
    Grows P Q w (getProductByExternalId env id init w).world := by
  rw [getProductByExternalId_world]
  refine ⟨[], [Op.select id init], by simp, rfl, by simp, ?_⟩
  intro op hop
  rw [List.mem_singleton] at hop
  subst hop
  exact hQ _ _

/-- Whatever its outcome, the variant loop only appends rows bound from the adapter's
child lists for the given parent, and only sends lookups and inserts of such lists. -/
theorem processChildrenLoop_grows (env : Env) (father : Option Row) (pfx : String)
    (P : Row → Prop) (Q : Op → Prop)
    (hP : ∀ tick v data r,
      prepareData env tick v pfx true (fatherId father) (fatherImage father) = some data →
      bindRow env data = some r → P r)
    (hQs : ∀ i b, Q (Op.select i b))
    (hQi : ∀ tick v data,
      prepareData env tick v pfx true (fatherId father) (fatherImage father) = some data →
      Q (Op.insert data)) :
    ∀ (vs : List JSVal) (w : World),
      Grows P Q w (processChildrenLoop env father pfx vs w).world := by
  intro vs
  induction vs with
  | nil => intro w; exact Grows.refl P Q w
  | cons v rest ih =>
    intro w
    unfold processChildrenLoop
    cases hk : childKey v with
    | none => exact Grows.refl P Q w
    | some id =>
      simp only []
      have hg1 := getProductByExternalId_grows env id false w P Q hQs
      cases hl : getProductByExternalId env id false w with
      | err e w1 =>
        rw [hl] at hg1
        exact hg1
      | ok res w1 =>
        rw [hl] at hg1
        cases res with
        | some found => exact Grows.trans hg1 (ih w1)
        | none =>
          simp only []
          have hg2 := insertProduct_grows env v pfx true (fatherId father)
            (fatherImage father) w1 P Q (fun t d r => hP t v d r) (fun t d => hQi t v d)
          cases hi : insertProduct env v pfx true (fatherId father) (fatherImage father) w1 with
          | err e w2 =>
            rw [hi] at hg2
            exact Grows.trans hg1 hg2
          | ok a w2 =>
            rw [hi] at hg2
            exact Grows.trans hg1 (Grows.trans hg2 (ih w2))

/-- Whatever its outcome, `processChildren` only appends rows bound from the adapter's
child lists, and only sends lookups and inserts of such lists. -/
theorem processChildren_grows (env : Env) (pfx : String) (P : Row → Prop) (Q : Op → Prop)
    (hP : ∀ tick v parent_id image data r,
      prepareData env tick v pfx true parent_id image = some data →
      bindRow env data = some r → P r)
    (hQs : ∀ i b, Q (Op.select i b))
    (hQi : ∀ tick v parent_id image data,
      prepareData env tick v pfx true parent_id image = some data → Q (Op.insert data))
    (variants external_id : JSVal) (w : World) :
    Grows P Q w (processChildren env variants pfx external_id w).world := by
  unfold processChildren
  have hg1 := getProductByExternalId_grows env external_id true w P Q hQs
  cases hl : getProductByExternalId env external_id true w with
  | err e w1 =>
    rw [hl] at hg1
    exact hg1
  | ok father w1 =>
    rw [hl] at hg1
    cases hv : variants.iterate with
    | none => exact hg1
    | some vs =>
      exact Grows.trans hg1 (processChildrenLoop_grows env father pfx P Q
        (fun t v d r => hP t v _ _ d r) hQs (fun t v d => hQi t v _ _ d) vs w1)

/-- Whatever its outcome, `processProducts` only appends rows bound from the adapter's
lists, and only sends lookups and inserts of such lists. -/
theorem processProducts_grows (env : Env) (pfx : String) (P : Row → Prop) (Q : Op → Prop)
    (hP : ∀ tick v children parent_id image data r,
      prepareData env tick v pfx children parent_id image = some data →
      bindRow env data = some r → P r)
    (hQs : ∀ i b, Q (Op.select i b))
    (hQi : ∀ tick v children parent_id image data,
      prepareData env tick v pfx children parent_id image = some data → Q (Op.insert data)) :
    ∀ (ps : List JSVal) (w : World), Grows P Q w (processProducts env pfx ps w).world := by
  intro ps
  induction ps with
  | nil => intro w; exact Grows.refl P Q w
  | cons p rest ih =>
    intro w
    unfold processProducts
    have hg1 := getProductByExternalId_grows env (lookupKey p) true w P Q hQs
    cases hl : getProductByExternalId env (lookupKey p) true w with
    | err e w1 =>
      rw [hl] at hg1
      exact hg1
    | ok existing w1 =>
      rw [hl] at hg1
      simp only []
      have hstep : ∀ w2, Grows P Q w w2 → Grows P Q w
          (match childrenStep env p pfx w2 with
           | Res.err e w3 => Res.err e w3
           | Res.ok _ w3 => processProducts env pfx rest w3).world := by
        intro w2 hw2
        have hg3 : Grows P Q w2 (childrenStep env p pfx w2).world := by
          unfold childrenStep
          split
          · exact processChildren_grows env pfx P Q (fun t v => hP t v true) hQs
              (fun t v => hQi t v true) _ _ w2
          · exact Grows.refl P Q w2
        cases hc : childrenStep env p pfx w2 with
        | err e w3 =>
          rw [hc] at hg3
          exact Grows.trans hw2 hg3
        | ok a w3 =>
          rw [hc] at hg3
          exact Grows.trans hw2 (Grows.trans hg3 (ih w3))
      cases existing with
      | some found => exact hstep w1 hg1
      | none =>
        simp only [rootStep]
        have hg2 := insertProduct_grows env p pfx false JSVal.null (JSVal.str "") w1 P Q
          (fun t d r => hP t p false _ _ d r) (fun t d => hQi t p false _ _ d)
        cases hi : insertProduct env p pfx false JSVal.null (JSVal.str "") w1 with
        | err e w2 =>
          rw [hi] at hg2
          exact Grows.trans hg1 hg2
        | ok a w2 =>
          rw [hi] at hg2
          exact hstep w2 (Grows.trans hg1 hg2)

/-! ## Platform adapter: shape of the stored row -/

/-- For a tag that is neither platform tag the adapter returns the empty list. -/
theorem prepareData_unsupported (env : Env) (tick : Nat) (product : JSVal) (pfx : String)
    (children : Bool) (parent_id image : JSVal)
    (hv : pfx ≠ env.vtex) (hs : pfx ≠ env.shopify) :
    prepareData env tick product pfx children parent_id image = some [] := by
  simp [prepareData, hv, hs]

/-- The key columns of a row bound from the adapter's list: a fresh `product_id`, the
given `parent_id` for a child and `NULL` for a root, `init` false for a child and true
for a root, and the platform's id field as `external_id`. -/
theorem prepareData_row {env : Env} {tick : Nat} {product : JSVal} {pfx : String}
    {children : Bool} {parent_id image : JSVal} {data : List Param} {r : Row}
    (hd : prepareData env tick product pfx children parent_id image = some data)
    (hb : bindRow env data = some r) :
    r.product_id = env.uuidv4 tick
    ∧ r.parent_id = (if children then pgText env (Param.val parent_id) else none)
    ∧ r.init = some (if children then "false" else "true")
    ∧ r.external_id = pgText env (Param.val (storedId env pfx children product)) := by
  unfold prepareData at hd
  by_cases hv : pfx = env.vtex
  · cases children
    · simp only [hv, if_true, Bool.false_eq_true, if_false, Option.bind_eq_bind,
        Option.bind_eq_some, Option.pure_def, Option.some.injEq] at hd
      obtain ⟨a, ha, b, _, c, _, d, _, hdata⟩ := hd
      subst hdata
      simp only [bindRow, pgText, Option.some.injEq] at hb
      subst hb
      simp [storedId, hv, ha, pgText]
    · simp only [hv, if_true, Option.bind_eq_bind,
        Option.bind_eq_some, Option.pure_def, Option.some.injEq] at hd
      obtain ⟨a, ha, b, _, c, _, d, _, e, _, f, _, g, _, h, _, hdata⟩ := hd
      subst hdata
      simp only [bindRow, pgText, Option.some.injEq] at hb
      subst hb
      simp [storedId, hv, ha, pgText]
  · by_cases hs : pfx = env.shopify
    · subst hs
      rw [if_neg hv, if_pos rfl] at hd
      cases children
      · simp only [Bool.false_eq_true, if_false, Option.bind_eq_bind,
          Option.bind_eq_some, Option.pure_def, Option.some.injEq] at hd
        obtain ⟨a, ha, b, _, c, _, hdata⟩ := hd
        subst hdata
        simp only [bindRow, pgText, Option.some.injEq] at hb
        subst hb
        simp [storedId, hv, ha, pgText]
      · simp only [if_true, Option.bind_eq_bind,
          Option.bind_eq_some, Option.pure_def, Option.some.injEq] at hd
        obtain ⟨a, ha, b, _, c, _, d, _, hdata⟩ := hd
        subst hdata
        simp only [bindRow, pgText, Option.some.injEq] at hb
        subst hb
        simp [storedId, hv, ha, pgText]
    · simp only [hv, hs, if_false, Option.some.injEq] at hd
      subst hd
      simp [bindRow] at hb

/-- C10 (fails on the code): with the tag `"other"`, which is neither platform tag, and
the list `[{id: "P1", title: "T"}]` on the empty table, `processProducts` sends an
`INSERT` after the lookup, and the call ends with the store's error. -/
theorem C10_unsupported_tag_sends_insert :
    "other" ≠ Env.sample.vtex ∧ "other" ≠ Env.sample.shopify
    ∧ (processProducts Env.sample "other" [plainProduct "P1"] World.empty).world.log.map
        Op.isInsert = [false, true]
    ∧ (processProducts Env.sample "other" [plainProduct "P1"] World.empty).error
        = some (Err.storage "INSERT rejected: the parameters do not bind") := by
  decide

/-- C10 (amended): for a tag that is neither platform tag `prepareData` returns the empty
list whatever its other arguments, and `processProducts` run with such a tag adds no
row; every statement it sends is a lookup or an `INSERT` with the empty parameter
list, and such an `INSERT` is sent for the first product whose root lookup finds
nothing, where the call ends with a store error; the variant loop does the same for
the first variant whose lookup finds nothing. -/
theorem C10_unsupported_tag (env : Env) (pfx : String)
    (hv : pfx ≠ env.vtex) (hs : pfx ≠ env.shopify) (ps : List JSVal) (w : World) :
    (∀ tick product children parent_id image,
      prepareData env tick product pfx children parent_id image = some [])
    ∧ (processProducts env pfx ps w).world.rows = w.rows
    ∧ (∃ ops, (processProducts env pfx ps w).world.log = w.log ++ ops
        ∧ ∀ op ∈ ops, selectOrEmptyInsert op)
    ∧ (∀ p rest,
        env.storeError w.log (Op.select (lookupKey p) true) = none →
        w.rows.find? (matchesLookup (pgText env (Param.val (lookupKey p))) true) = none →
        ∃ msg, processProducts env pfx (p :: rest) w
          = Res.err (Err.storage msg)
              { rows := w.rows,
                log := w.log ++ [Op.select (lookupKey p) true, Op.insert []],
                tick := w.tick + 3 })
    ∧ (∀ father v rest id,
        childKey v = some id →
        env.storeError w.log (Op.select id false) = none →
        w.rows.find? (matchesLookup (pgText env (Param.val id)) false) = none →
        ∃ msg, processChildrenLoop env father pfx (v :: rest) w
          = Res.err (Err.storage msg)
              { rows := w.rows,
                log := w.log ++ [Op.select id false, Op.insert []],
                tick := w.tick + 3 }) := by
  have hprep := fun tick product children parent_id image =>
    prepareData_unsupported env tick product pfx children parent_id image hv hs
  have hg := processProducts_grows env pfx (fun _ => False) selectOrEmptyInsert
    (by
      intro tick v children parent_id image data r hd hb
      rw [hprep] at hd
      injection hd with hd
      subst hd
      simp [bindRow] at hb)
    (by intro i b; trivial)
    (by
      intro tick v children parent_id image data hd
      rw [hprep] at hd
      injection hd with hd
      subst hd
      rfl)
    ps w
  obtain ⟨added, ops, hr, hl, hp, hq⟩ := hg
  refine ⟨hprep, ?_, ⟨ops, hl, hq⟩, ?_, ?_⟩
  · cases added with
    | nil => simpa using hr
    | cons a t => exact (hp a (List.mem_cons_self a t)).elim
  · intro p rest hsel hnone
    unfold processProducts
    simp only [getProductByExternalId, hsel, hnone, rootStep, insertProduct, hprep, bindRow]
    cases hst : env.storeError (w.log ++ [Op.select (lookupKey p) true]) (Op.insert []) with
    | none => exact ⟨"INSERT rejected: the parameters do not bind", by simp⟩
    | some msg => exact ⟨msg, by simp⟩
  · intro father v rest id hk hsel hnone
    unfold processChildrenLoop
    simp only [hk, getProductByExternalId, hsel, hnone, insertProduct, hprep, bindRow]
    cases hst : env.storeError (w.log ++ [Op.select id false]) (Op.insert []) with
    | none => exact ⟨"INSERT rejected: the parameters do not bind", by simp⟩
    | some msg => exact ⟨msg, by simp⟩

/-- C10, an instance: tag `"other"` in the sample environment, one product, empty table. -/
theorem C10_unsupported_tag_witness :
    "other" ≠ Env.sample.vtex ∧ "other" ≠ Env.sample.shopify
    ∧ (processProducts Env.sample "other" [plainProduct "P1"] World.empty).world.rows
        = World.empty.rows :=
  ⟨by decide, by decide,
    (C10_unsupported_tag Env.sample "other" (by decide) (by decide)
      [plainProduct "P1"] World.empty).2.1⟩

/-! ## Reconciliation engine: claims C4, C7, C8 -/

/-- One turn of the product loop. -/
theorem processProducts_cons (env : Env) (pfx : String) (p : JSVal) (rest : List JSVal)
    (w : World) :
    processProducts env pfx (p :: rest) w
      = (match getProductByExternalId env (lookupKey p) true w with
         | Res.err e w1 => Res.err e w1
         | Res.ok existingProduct w1 =>
           match rootStep env p pfx existingProduct w1 with
           | Res.err e w2 => Res.err e w2
           | Res.ok _ w2 =>
             match childrenStep env p pfx w2 with
             | Res.err e w3 => Res.err e w3
             | Res.ok _ w3 => processProducts env pfx rest w3) := by
  rw [processProducts]

/-- Processing a concatenated list is processing the first part and, if that returns,
the second part from the state reached. -/
theorem processProducts_append (env : Env) (pfx : String) (pre post : List JSVal) :
    ∀ w, processProducts env pfx (pre ++ post) w
      = (match processProducts env pfx pre w with
         | Res.err e w1 => Res.err e w1
         | Res.ok _ w1 => processProducts env pfx post w1) := by
  induction pre with
  | nil => intro w; simp [processProducts]
  | cons p rest ih =>
    intro w
    simp only [List.cons_append]
    rw [processProducts_cons, processProducts_cons]
    cases hl : getProductByExternalId env (lookupKey p) true w with
    | err e w1 => rfl
    | ok existing w1 =>
      simp only []
      cases hi : rootStep env p pfx existing w1 with
      | err e w2 => rfl
      | ok a w2 =>
        simp only []
        cases hc : childrenStep env p pfx w2 with
        | err e w3 => rfl
        | ok a w3 => exact ih w3

/-- An insert that raises a store error has sent its statement and added no row. -/
theorem insertProduct_storage_err {env : Env} {product : JSVal} {pfx : String}
    {children : Bool} {parent_id image : JSVal} {w w2 : World} {msg : String}
    (h : insertProduct env product pfx children parent_id image w
      = Res.err (Err.storage msg) w2) :
    ∃ data, prepareData env w.tick product pfx children parent_id image = some data
      ∧ w2 = { rows := w.rows, log := w.log ++ [Op.insert data], tick := w.tick + 3 } := by
  unfold insertProduct at h
  cases hd : prepareData env w.tick product pfx children parent_id image with
  | none => simp [hd] at h
  | some data =>
    simp only [hd] at h
    cases hs : env.storeError w.log (Op.insert data) with
    | some m =>
      simp only [hs] at h
      injection h with _ h2
      exact ⟨data, rfl, h2.symm⟩
    | none =>
      simp only [hs] at h
      cases hb : bindRow env data with
      | some r => simp [hb] at h
      | none =>
        simp only [hb] at h
        injection h with _ h2
        exact ⟨data, rfl, h2.symm⟩

/-- C8: if, after the products before `p` have been processed (state `w1`), the root
lookup of `p` finds nothing and the store fails on the root insert of `p` with `msg`,
then `processProducts` fails with that same error; the state it leaves holds exactly the
rows present before the failure (no rollback, nothing added), and its log ends with the
root lookup and the failed `INSERT`: no statement is sent for the variants of `p` or
for any later product. -/
theorem C8_storage_failure_short_circuits (env : Env) (pfx : String)
    (pre post : List JSVal) (p : JSVal) (w w1 w1a w2 : World) (msg : String)
    (hpre : processProducts env pfx pre w = Res.ok () w1)
    (hlook : getProductByExternalId env (lookupKey p) true w1 = Res.ok none w1a)
    (hins : insertProduct env p pfx false JSVal.null (JSVal.str "") w1a
      = Res.err (Err.storage msg) w2) :
    processProducts env pfx (pre ++ p :: post) w = Res.err (Err.storage msg) w2
    ∧ w2.rows = w1.rows
    ∧ ∃ data, w2.log = w1.log ++ [Op.select (lookupKey p) true, Op.insert data] := by
  refine ⟨?_, ?_, ?_⟩
  · rw [processProducts_append, hpre]
    simp only []
    rw [processProducts_cons, hlook]
    simp only [rootStep, hins]
  · obtain ⟨_, hw1a, _⟩ := getProductByExternalId_ok hlook
    obtain ⟨data, _, hw2⟩ := insertProduct_storage_err hins
    rw [hw2, hw1a]
  · obtain ⟨_, hw1a, _⟩ := getProductByExternalId_ok hlook
    obtain ⟨data, _, hw2⟩ := insertProduct_storage_err hins
    refine ⟨data, ?_⟩
    rw [hw2, hw1a]
    simp

/-- C8, an instance: the store accepts the root of `"P1"` and fails on the root of
`"P2"`; the call fails with `"connection lost"`, and the log holds four statements:
lookup and insert of `"P1"`, lookup and failed insert of `"P2"`. -/
theorem C8_storage_failure_witness :
    (processProducts Env.flaky "shopify"
        ([plainProduct "P1"] ++ secondProduct :: [plainProduct "P3"]) World.empty).error
      = some (Err.storage "connection lost")
    ∧ (processProducts Env.flaky "shopify"
        ([plainProduct "P1"] ++ secondProduct :: [plainProduct "P3"]) World.empty).world.log.map
          Op.isInsert = [false, true, false, true] := by
  have h := C8_storage_failure_short_circuits Env.flaky "shopify" [plainProduct "P1"]
    [plainProduct "P3"] secondProduct World.empty
    (processProducts Env.flaky "shopify" [plainProduct "P1"] World.empty).world
    (getProductByExternalId Env.flaky (lookupKey secondProduct) true
      (processProducts Env.flaky "shopify" [plainProduct "P1"] World.empty).world).world
    (insertProduct Env.flaky secondProduct "shopify" false JSVal.null (JSVal.str "")
      (getProductByExternalId Env.flaky (lookupKey secondProduct) true
        (processProducts Env.flaky "shopify" [plainProduct "P1"] World.empty).world).world).world
    "connection lost" rfl rfl rfl
  rw [h.1]
  decide

/-- C7: `processProducts` keeps every row that was in the table, unchanged and in place
(the table afterwards is the table before followed by the added rows); a product whose
root lookup finds a row is processed as its children step alone, on a state that
differs from the one before only by the logged lookup; and a variant whose lookup finds
a row leaves the state as it was but for the logged lookup. -/
theorem C7_existing_records_untouched (env : Env) (pfx : String) (w : World) :
    (∀ ps, ∃ added, (processProducts env pfx ps w).world.rows = w.rows ++ added)
    ∧ (∀ p found,
        env.storeError w.log (Op.select (lookupKey p) true) = none →
        w.rows.find? (matchesLookup (pgText env (Param.val (lookupKey p))) true) = some found →
        (processProducts env pfx [p] w).world
          = (childrenStep env p pfx
              { w with log := w.log ++ [Op.select (lookupKey p) true] }).world)
    ∧ (∀ father v id found,
        childKey v = some id →
        w.rows.find? (matchesLookup (pgText env (Param.val id)) false) = some found →
        (processChildrenLoop env father pfx [v] w).world
          = { w with log := w.log ++ [Op.select id false] }) := by
  refine ⟨?_, ?_, ?_⟩
  · intro ps
    obtain ⟨added, _, hr, _, _, _⟩ := processProducts_grows env pfx (fun _ => True)
      (fun _ => True) (by intros; trivial) (by intros; trivial) (by intros; trivial) ps w
    exact ⟨added, hr⟩
  · intro p found hsel hfound
    unfold processProducts
    simp only [getProductByExternalId, hsel, hfound, rootStep]
    cases hc : childrenStep env p pfx
        { rows := w.rows, log := w.log ++ [Op.select (lookupKey p) true], tick := w.tick } with
    | err e w3 => rfl
    | ok a w3 => simp [processProducts, Res.world]
  · intro father v id found hk hfound
    unfold processChildrenLoop
    simp only [hk, getProductByExternalId, hfound]
    cases hs : env.storeError w.log (Op.select id false) with
    | some msg => rfl
    | none => simp [processChildrenLoop, Res.world]

/-- C7, an instance: the table holds the root of `"P1"`; processing `"P1"` again leaves
the table as it was. -/
theorem C7_existing_records_witness :
    (processProducts Env.sample "shopify" [plainProduct "P1"] worldP1).world.rows
      = worldP1.rows := by
  have h := (C7_existing_records_untouched Env.sample "shopify" worldP1).2.1
    (plainProduct "P1") rowP1 (by rfl) (by decide)
  rw [h]
  decide

/-- C4: when the root lookup by the product's external id finds the row `f` (a row of
the table in root scope whose `external_id` is that id), every row `processChildren`
adds has `parent_id` equal to the generated `product_id` of `f`; that value is not the
external id, the generated identifier being different from the platform's. -/
theorem C4_parent_linkage (env : Env) (pfx : String) (variants external_id : JSVal)
    (w : World) (f : Row)
    (hf : w.rows.find? (matchesLookup (pgText env (Param.val external_id)) true) = some f)
    (hgen : some f.product_id ≠ pgText env (Param.val external_id)) :
    f ∈ w.rows ∧ f.parent_id = none ∧ f.external_id = pgText env (Param.val external_id)
    ∧ ∃ added, (processChildren env variants pfx external_id w).world.rows = w.rows ++ added
        ∧ ∀ r ∈ added, r.parent_id = some f.product_id
            ∧ r.parent_id ≠ pgText env (Param.val external_id) := by
  have hmem : f ∈ w.rows := List.mem_of_find?_eq_some hf
  have hmatch := List.find?_some hf
  have hscope : f.parent_id = none ∧ f.external_id = pgText env (Param.val external_id) := by
    unfold matchesLookup at hmatch
    cases hk : pgText env (Param.val external_id) with
    | none => simp [hk] at hmatch
    | some k =>
      cases he : f.external_id with
      | none => simp [hk, he] at hmatch
      | some e =>
        simp only [hk, he, if_true, Bool.and_eq_true, beq_iff_eq, Option.isNone_iff_eq_none]
          at hmatch
        exact ⟨hmatch.2, by rw [hmatch.1]⟩
  refine ⟨hmem, hscope.1, hscope.2, ?_⟩
  unfold processChildren
  cases hl : getProductByExternalId env external_id true w with
  | err e w1 =>
    obtain ⟨hw1, _⟩ := getProductByExternalId_err hl
    exact ⟨[], by simp [Res.world, hw1], by simp⟩
  | ok father w1 =>
    obtain ⟨hfather, hw1, _⟩ := getProductByExternalId_ok hl
    rw [hf] at hfather
    subst hfather
    cases hv : variants.iterate with
    | none => exact ⟨[], by simp [Res.world, hw1], by simp⟩
    | some vs =>
      simp only []
      obtain ⟨added, _, hr, _, hp, _⟩ := processChildrenLoop_grows env (some f) pfx
        (fun r => r.parent_id = some f.product_id) (fun _ => True)
        (by
          intro tick v data r hd hb
          have := (prepareData_row hd hb).2.1
          simpa [fatherId, pgText] using this)
        (by intros; trivial) (by intros; trivial) vs w1
      refine ⟨added, ?_, ?_⟩
      · rw [hr, hw1]
      · intro r hr
        have h1 := hp r hr
        exact ⟨h1, by rw [h1]; exact hgen⟩

/-- C4, an instance: the root `"P1"` is in the table; its two variants are added with
`parent_id` equal to the root's generated id `"u"`. -/
theorem C4_parent_linkage_witness :
    ∃ added, (processChildren Env.sample
        (JSVal.arr [JSVal.obj [("id", JSVal.str "V1")], JSVal.obj [("id", JSVal.str "V2")]])
        "shopify" (JSVal.str "P1") worldP1).world.rows = worldP1.rows ++ added
      ∧ ∀ r ∈ added, r.parent_id = some rowP1.product_id
          ∧ r.parent_id ≠ pgText Env.sample (Param.val (JSVal.str "P1")) :=
  (C4_parent_linkage Env.sample "shopify"
    (JSVal.arr [JSVal.obj [("id", JSVal.str "V1")], JSVal.obj [("id", JSVal.str "V2")]])
    (JSVal.str "P1") worldP1 rowP1 (by decide) (by decide)).2.2.2

/-! ## Scope of a lookup -/

/-- A row selected by a lookup has the looked-up text as `external_id`, which is not
`NULL`, and lies in the scope asked for. -/
theorem matchesLookup_true {key : Option String} {init : Bool} {r : Row}
    (h : matchesLookup key init r = true) :
    r.external_id = key ∧ key ≠ none
    ∧ (init = true → r.parent_id = none) ∧ (init = false → r.parent_id ≠ none) := by
  unfold matchesLookup at h
  cases key with
  | none => simp at h
  | some k =>
    cases he : r.external_id with
    | none => simp [he] at h
    | some e =>
      simp only [he, Bool.and_eq_true, beq_iff_eq] at h
      obtain ⟨h1, h2⟩ := h
      subst h1
      refine ⟨rfl, by simp, ?_, ?_⟩
      · intro hi
        subst hi
        simpa using h2
      · intro hi
        subst hi
        intro hp
        simp [hp] at h2

/-- A row with the looked-up text as `external_id` in the scope asked for is selected. -/
theorem matchesLookup_of {k : String} {init : Bool} {r : Row}
    (he : r.external_id = some k) (hs : r.parent_id.isNone = init) :
    matchesLookup (some k) init r = true := by
  unfold matchesLookup
  cases init <;> cases hp : r.parent_id <;> simp_all

/-- In a reachable state every row with a parent was inserted as a child. -/
theorem Reachable.child_init {env : Env} {w : World} (hw : Reachable env w) :
    ∀ r ∈ w.rows, r.parent_id ≠ none → r.init = some "false" := by
  induction hw with
  | empty => intro r hr; simp [World.empty] at hr
  | reconcile pfx ps w _ ih =>
    obtain ⟨added, _, hr, _, hp, _⟩ := processProducts_grows env pfx
      (fun r => r.parent_id ≠ none → r.init = some "false") (fun _ => True)
      (by
        intro tick v children parent_id image data r hd hb hpar
        obtain ⟨_, h2, h3, _⟩ := prepareData_row hd hb
        cases children with
        | false => simp [h2] at hpar
        | true => simpa using h3)
      (by intros; trivial) (by intros; trivial) ps w
    intro r hmem
    rw [hr] at hmem
    rcases List.mem_append.mp hmem with h | h
    · exact ih r h
    · exact hp r h

/-! ## Keyed tables: claims C5, C6 -/

theorem sameKey_true {env : Env} {a b : JSVal} (h : sameKey env a b = true) :
    ∃ k, pgText env (Param.val a) = some k ∧ pgText env (Param.val b) = some k := by
  unfold sameKey at h
  cases ha : pgText env (Param.val a) with
  | none => simp [ha] at h
  | some x =>
    cases hb : pgText env (Param.val b) with
    | none => simp [ha, hb] at h
    | some y =>
      simp only [ha, hb, beq_iff_eq] at h
      exact ⟨x, rfl, by rw [h]⟩

theorem wellKeyed_root {env : Env} {pfx : String} {p : JSVal}
    (h : wellKeyed env pfx p = true) :
    sameKey env (lookupKey p) (storedId env pfx false p) = true := by
  unfold wellKeyed at h
  rw [Bool.and_eq_true] at h
  exact h.1

theorem wellKeyed_children {env : Env} {pfx : String} {p : JSVal}
    (h : wellKeyed env pfx p = true) (hc : hasChildren env (childList p) = true)
    {vs : List JSVal} (hv : (childList p).iterate = some vs) :
    ∀ v ∈ vs, ∀ id, childKey v = some id →
      sameKey env id (storedId env pfx true v) = true := by
  unfold wellKeyed at h
  rw [Bool.and_eq_true] at h
  have h2 := h.2
  simp only [hc, if_true, hv, List.all_eq_true] at h2
  intro v hmem id hk
  have := h2 v hmem
  simpa [hk] using this

/-- One turn of the variant loop. -/
theorem processChildrenLoop_cons (env : Env) (father : Option Row) (pfx : String)
    (v : JSVal) (rest : List JSVal) (w : World) :
    processChildrenLoop env father pfx (v :: rest) w
      = (match childKey v with
         | none => Res.err Err.typeError w
         | some id =>
           match getProductByExternalId env id false w with
           | Res.err e w1 => Res.err e w1
           | Res.ok (some _) w1 => processChildrenLoop env father pfx rest w1
           | Res.ok none w1 =>
             match insertProduct env v pfx true (fatherId father) (fatherImage father) w1 with
             | Res.err e w2 => Res.err e w2
             | Res.ok _ w2 => processChildrenLoop env father pfx rest w2) := by
  rw [processChildrenLoop]

/-- An insert that returns, for an entity whose lookup value and stored id field are
the same text, has appended one row with that text as `external_id`, in the scope and
with the `init` flag of the call. -/
theorem insertProduct_keyed_row {env : Env} {v : JSVal} {pfx : String} {children : Bool}
    {parent_id image id : JSVal} {w w2 : World}
    (h : insertProduct env v pfx children parent_id image w = Res.ok () w2)
    (hk : sameKey env id (storedId env pfx children v) = true) :
    ∃ r k, w2.rows = w.rows ++ [r] ∧ pgText env (Param.val id) = some k
      ∧ r.external_id = some k
      ∧ r.parent_id = (if children then pgText env (Param.val parent_id) else none)
      ∧ r.init = some (if children then "false" else "true") := by
  obtain ⟨data, r, hd, hb, _, hw2⟩ := insertProduct_ok h
  obtain ⟨k, hk1, hk2⟩ := sameKey_true hk
  obtain ⟨_, hpar, hinit, hext⟩ := prepareData_row hd hb
  exact ⟨r, k, by rw [hw2], hk1, by rw [hext, hk2], hpar, hinit⟩

theorem RowsKeyed.append_one {rows : List Row} {r : Row} {k : String} (init : Bool)
    (h : RowsKeyed rows) (he : r.external_id = some k)
    (hnone : rows.find? (matchesLookup (some k) init) = none)
    (hs : r.parent_id.isNone = init)
    (hi : r.init = some (if init then "true" else "false")) :
    RowsKeyed (rows ++ [r]) := by
  obtain ⟨h1, h2⟩ := h
  constructor
  · intro r1 hr1
    rcases List.mem_append.mp hr1 with hm | hm
    · exact h1 r1 hm
    · rw [List.mem_singleton] at hm
      subst hm
      refine ⟨by simp [he], ?_⟩
      cases init with
      | true =>
        left
        exact ⟨by simpa using hi, by simpa using hs⟩
      | false =>
        right
        refine ⟨by simpa using hi, ?_⟩
        intro hp
        simp [hp] at hs
  · rw [List.pairwise_append]
    refine ⟨h2, List.pairwise_singleton _ _, ?_⟩
    intro a ha b hb hscope
    rw [List.mem_singleton] at hb
    subst hb
    intro hext
    have hm : matchesLookup (some k) init a = true :=
      matchesLookup_of (by rw [hext, he]) (by rw [hscope, hs])
    rw [List.find?_eq_none] at hnone
    exact hnone a ha hm

/-- The variant loop keeps the table keyed when the parent was found and the variants
have consistent ids. -/
theorem processChildrenLoop_keyed (env : Env) (f : Row) (pfx : String) :
    ∀ (vs : List JSVal) (w : World), RowsKeyed w.rows →
      (∀ v ∈ vs, ∀ id, childKey v = some id →
        sameKey env id (storedId env pfx true v) = true) →
      RowsKeyed (processChildrenLoop env (some f) pfx vs w).world.rows := by
  intro vs
  induction vs with
  | nil => intro w hw _; exact hw
  | cons v rest ih =>
    intro w hw hkeys
    have hrest : ∀ v1 ∈ rest, ∀ id, childKey v1 = some id →
        sameKey env id (storedId env pfx true v1) = true :=
      fun v1 h1 => hkeys v1 (List.mem_cons_of_mem v h1)
    rw [processChildrenLoop_cons]
    cases hk : childKey v with
    | none => exact hw
    | some id =>
      simp only []
      cases hl : getProductByExternalId env id false w with
      | err e w1 =>
        obtain ⟨hw1, _⟩ := getProductByExternalId_err hl
        subst hw1
        exact hw
      | ok res w1 =>
        obtain ⟨hres, hw1, _⟩ := getProductByExternalId_ok hl
        have hrows : w1.rows = w.rows := by rw [hw1]
        cases res with
        | some found =>
          exact ih w1 (by rw [hrows]; exact hw) hrest
        | none =>
          simp only []
          cases hi : insertProduct env v pfx true (fatherId (some f))
              (fatherImage (some f)) w1 with
          | err e w2 =>
            obtain ⟨hr2, _⟩ := insertProduct_err hi
            show RowsKeyed w2.rows
            rw [hr2, hrows]
            exact hw
          | ok a w2 =>
            obtain ⟨r, k, hr2, hk1, hext, hpar, hinit⟩ :=
              insertProduct_keyed_row hi (hkeys v (List.mem_cons_self v rest) id hk)
            refine ih w2 ?_ hrest
            rw [hr2, hrows]
            refine RowsKeyed.append_one false hw hext ?_ ?_ ?_
            · rw [← hk1]
              exact hres.symm
            · rw [hpar]
              simp [fatherId, pgText]
            · simpa using hinit

theorem found_append {env : Env} {rows : List Row} {id : JSVal} {init : Bool}
    (more : List Row) (h : found env rows id init = true) :
    found env (rows ++ more) id init = true := by
  unfold found at *
  rw [List.find?_isSome] at *
  obtain ⟨x, hx, hp⟩ := h
  exact ⟨x, List.mem_append_left more hx, hp⟩

/-- The call `processChildren` keeps the table keyed when the root is in the table and the
variants have consistent ids. -/
theorem processChildren_keyed (env : Env) (pfx : String) (variants external_id : JSVal)
    (w : World) (hw : RowsKeyed w.rows) (hroot : found env w.rows external_id true = true)
    (hkeys : ∀ vs, variants.iterate = some vs → ∀ v ∈ vs, ∀ id, childKey v = some id →
      sameKey env id (storedId env pfx true v) = true) :
    RowsKeyed (processChildren env variants pfx external_id w).world.rows := by
  unfold processChildren
  cases hl : getProductByExternalId env external_id true w with
  | err e w1 =>
    obtain ⟨hw1, _⟩ := getProductByExternalId_err hl
    subst hw1
    exact hw
  | ok father w1 =>
    obtain ⟨hres, hw1, _⟩ := getProductByExternalId_ok hl
    have hrows : w1.rows = w.rows := by rw [hw1]
    cases hv : variants.iterate with
    | none =>
      show RowsKeyed w1.rows
      rw [hrows]
      exact hw
    | some vs =>
      simp only []
      cases father with
      | none =>
        unfold found at hroot
        rw [← hres] at hroot
        simp at hroot
      | some f =>
        exact processChildrenLoop_keyed env f pfx vs w1 (by rw [hrows]; exact hw)
          (hkeys vs hv)

/-- The children step keeps the table keyed when the root is in the table. -/
theorem childrenStep_keyed (env : Env) (pfx : String) (p : JSVal) (w : World)
    (hw : RowsKeyed w.rows) (hroot : found env w.rows (lookupKey p) true = true)
    (hp : wellKeyed env pfx p = true) :
    RowsKeyed (childrenStep env p pfx w).world.rows := by
  unfold childrenStep
  by_cases hc : hasChildren env (childList p) = true
  · rw [if_pos hc]
    exact processChildren_keyed env pfx _ _ w hw hroot
      (fun vs hv => wellKeyed_children hp hc hv)
  · rw [if_neg hc]
    exact hw

/-- After the root step of a product with consistent ids the table is still keyed and
holds a root row for the product. -/
theorem rootStep_keyed (env : Env) (pfx : String) (p : JSVal) (w1 : World)
    (existing : Option Row)
    (hres : existing = w1.rows.find?
      (matchesLookup (pgText env (Param.val (lookupKey p))) true))
    (hw : RowsKeyed w1.rows) (hp : wellKeyed env pfx p = true) :
    RowsKeyed (rootStep env p pfx existing w1).world.rows
    ∧ ∀ w2, rootStep env p pfx existing w1 = Res.ok () w2 →
        found env w2.rows (lookupKey p) true = true := by
  unfold rootStep
  cases existing with
  | some fnd =>
    refine ⟨hw, ?_⟩
    intro w2 h2
    injection h2 with _ h2
    subst h2
    unfold found
    rw [← hres]
    rfl
  | none =>
    simp only []
    cases hi : insertProduct env p pfx false JSVal.null (JSVal.str "") w1 with
    | err e w2 =>
      obtain ⟨hr2, _⟩ := insertProduct_err hi
      refine ⟨?_, ?_⟩
      · show RowsKeyed w2.rows
        rw [hr2]
        exact hw
      · intro w3 h3
        cases h3
    | ok a w2 =>
      obtain ⟨r, k, hr2, hk1, hext, hpar, hinit⟩ :=
        insertProduct_keyed_row hi (wellKeyed_root hp)
      have hparent : r.parent_id = none := by simpa using hpar
      refine ⟨?_, ?_⟩
      · show RowsKeyed w2.rows
        rw [hr2]
        refine RowsKeyed.append_one true hw hext ?_ ?_ ?_
        · rw [← hk1]
          exact hres.symm
        · rw [hparent]
          rfl
        · simpa using hinit
      · intro w3 h3
        injection h3 with _ h3
        subst h3
        unfold found
        rw [List.find?_isSome]
        refine ⟨r, ?_, ?_⟩
        · rw [hr2]
          simp
        · rw [hk1]
          exact matchesLookup_of hext (by rw [hparent]; rfl)

/-- The call `processProducts` keeps the table keyed when every product has consistent ids. -/
theorem processProducts_keyed (env : Env) (pfx : String) :
    ∀ (ps : List JSVal) (w : World), RowsKeyed w.rows →
      (∀ p ∈ ps, wellKeyed env pfx p = true) →
      RowsKeyed (processProducts env pfx ps w).world.rows := by
  intro ps
  induction ps with
  | nil => intro w hw _; exact hw
  | cons p rest ih =>
    intro w hw hps
    have hp := hps p (List.mem_cons_self p rest)
    have hrest : ∀ q ∈ rest, wellKeyed env pfx q = true :=
      fun q hq => hps q (List.mem_cons_of_mem p hq)
    rw [processProducts_cons]
    cases hl : getProductByExternalId env (lookupKey p) true w with
    | err e w1 =>
      obtain ⟨hw1, _⟩ := getProductByExternalId_err hl
      subst hw1
      exact hw
    | ok existing w1 =>
      obtain ⟨hres, hw1, _⟩ := getProductByExternalId_ok hl
      have hrows : w1.rows = w.rows := by rw [hw1]
      have hroot := rootStep_keyed env pfx p w1 existing (by rw [hrows]; exact hres)
        (by rw [hrows]; exact hw) hp
      simp only []
      cases hi : rootStep env p pfx existing w1 with
      | err e w2 =>
        have := hroot.1
        rw [hi] at this
        exact this
      | ok a w2 =>
        have hk2 := hroot.1
        rw [hi] at hk2
        have hf2 := hroot.2 w2 hi
        have hk3 := childrenStep_keyed env pfx p w2 hk2 hf2 hp
        simp only []
        cases hc : childrenStep env p pfx w2 with
        | err e w3 =>
          rw [hc] at hk3
          exact hk3
        | ok a w3 =>
          rw [hc] at hk3
          exact ih w3 hk3 hrest

theorem KeyedReachable.rowsKeyed {env : Env} {w : World} (hw : KeyedReachable env w) :
    RowsKeyed w.rows := by
  induction hw with
  | empty => exact ⟨by simp [World.empty], by simp [World.empty]⟩
  | reconcile pfx ps w _ hps ih => exact processProducts_keyed env pfx ps w ih hps

/-- C5 (fails on the code): after `processProducts` has run on
`[{title: "T", variants: [{id: "X"}]}]` from the empty table, the root-scope lookup of
`"X"` returns the row inserted for the variant (`init` false, `external_id` `"X"`): the
product has no id, its root lookup failed, and the child was stored with `parent_id`
`NULL`. -/
theorem C5_root_lookup_returns_child :
    Reachable Env.sample worldNoId
    ∧ getProductByExternalId Env.sample (JSVal.str "X") true worldNoId
        = Res.ok (some rowOrphanX)
            { worldNoId with log := worldNoId.log ++ [Op.select (JSVal.str "X") true] }
    ∧ rowOrphanX.init = some "false" ∧ rowOrphanX.external_id = some "X" := by
  refine ⟨Reachable.reconcile "shopify" [productNoId] World.empty Reachable.empty, ?_,
    rfl, rfl⟩
  have h : worldNoId.rows.find?
      (matchesLookup (pgText Env.sample (Param.val (JSVal.str "X"))) true)
      = some rowOrphanX := by decide
  simp only [getProductByExternalId, h]
  rfl

/-- C5 (amended): in every state reachable from the empty table by `processProducts`
calls, a root-scope lookup `getProductByExternalId(X, true)` returns only a row without
a parent whose `external_id` is `X`, and a child-scope lookup
`getProductByExternalId(X, false)` returns only a row with a parent whose
`external_id` is `X`; that row was inserted as a variant (`init` false), never as a
root. When all the products processed had present, platform-consistent ids, the row a
root-scope lookup returns was inserted as a root (`init` true), never as a variant. -/
theorem C5_scope_isolation_by_parent (env : Env) (w : World) (hw : Reachable env w)
    (X : JSVal) (r : Row) (w1 : World) :
    (getProductByExternalId env X true w = Res.ok (some r) w1 →
      r.parent_id = none ∧ r.external_id = pgText env (Param.val X))
    ∧ (getProductByExternalId env X false w = Res.ok (some r) w1 →
      r.parent_id ≠ none ∧ r.external_id = pgText env (Param.val X)
      ∧ r.init = some "false" ∧ r.init ≠ some "true")
    ∧ (KeyedReachable env w →
      getProductByExternalId env X true w = Res.ok (some r) w1 →
      r.init = some "true" ∧ r.init ≠ some "false") := by
  refine ⟨?_, ?_, ?_⟩
  · intro h
    obtain ⟨hres, _, _⟩ := getProductByExternalId_ok h
    obtain ⟨he, _, hs, _⟩ := matchesLookup_true (List.find?_some hres.symm)
    exact ⟨hs rfl, he⟩
  rotate_left
  · intro hk h
    obtain ⟨hres, _, _⟩ := getProductByExternalId_ok h
    obtain ⟨_, _, hs, _⟩ := matchesLookup_true (List.find?_some hres.symm)
    rcases (hk.rowsKeyed.1 r (List.mem_of_find?_eq_some hres.symm)).2 with ⟨hi, _⟩ | ⟨_, hp⟩
    · refine ⟨hi, ?_⟩
      rw [hi]
      decide
    · exact absurd (hs rfl) hp
  · intro h
    obtain ⟨hres, _, _⟩ := getProductByExternalId_ok h
    obtain ⟨he, _, _, hs⟩ := matchesLookup_true (List.find?_some hres.symm)
    have hinit := hw.child_init r (List.mem_of_find?_eq_some hres.symm) (hs rfl)
    refine ⟨hs rfl, he, hinit, ?_⟩
    rw [hinit]
    decide

/-- C5, an instance: after `"P1"` with variants `"V1"`, `"V2"` has been processed, the
child-scope lookup of `"V1"` returns the variant's row, which has the parent `"u"`. -/
theorem C5_scope_isolation_witness :
    Reachable Env.sample worldVariants
    ∧ rowV1.parent_id ≠ none ∧ rowV1.external_id = some "V1"
    ∧ rowV1.init = some "false" ∧ rowV1.init ≠ some "true" :=
  ⟨Reachable.reconcile "shopify" [productWithVariants] World.empty Reachable.empty,
    (C5_scope_isolation_by_parent Env.sample worldVariants
      (Reachable.reconcile "shopify" [productWithVariants] World.empty Reachable.empty)
      (JSVal.str "V1") rowV1
      { worldVariants with log := worldVariants.log ++ [Op.select (JSVal.str "V1") false] }).2.1
      (by
        have h : worldVariants.rows.find?
            (matchesLookup (pgText Env.sample (Param.val (JSVal.str "V1"))) false)
            = some rowV1 := by decide
        simp only [getProductByExternalId, h]
        rfl)⟩

/-- C6 (fails on the code): running `processProducts` twice on
`[{title: "T", variants: [{id: "X"}]}]` from the empty table leaves two rows inserted as
children (`init` false) with `external_id` `"X"`: the product has no id, so the child
is stored with `parent_id` `NULL`, where the child-scope lookup does not see it. -/
theorem C6_duplicate_child_rows :
    Reachable Env.sample worldNoIdTwice
    ∧ (worldNoIdTwice.rows.filter
        (fun r => r.init == some "false" && r.external_id == some "X")).length = 2
    ∧ ¬ UniquePerScope worldNoIdTwice.rows := by
  refine ⟨Reachable.reconcile "shopify" [productNoId] worldNoId
    (Reachable.reconcile "shopify" [productNoId] World.empty Reachable.empty), ?_, ?_⟩
  · decide
  · unfold UniquePerScope
    decide

/-- C6 (amended): starting from the empty table, after any sequence of
`processProducts` calls on lists whose products and variants have present,
platform-consistent ids (`wellKeyed`; the lists may repeat a product or a variant), no
two root rows share an `external_id` and no two child rows share an `external_id`. -/
theorem C6_unique_per_scope (env : Env) (w : World) (hw : KeyedReachable env w) :
    UniquePerScope w.rows := by
  obtain ⟨h1, h2⟩ := hw.rowsKeyed
  unfold UniquePerScope
  refine List.Pairwise.imp_of_mem ?_ h2
  intro a b ha hb hR hinit
  apply hR
  rcases (h1 a ha).2 with ⟨hai, hap⟩ | ⟨hai, hap⟩
  · rcases (h1 b hb).2 with ⟨hbi, hbp⟩ | ⟨hbi, hbp⟩
    · rw [hap, hbp]
    · rw [hai, hbi] at hinit
      exact absurd hinit (by decide)
  · rcases (h1 b hb).2 with ⟨hbi, hbp⟩ | ⟨hbi, hbp⟩
    · rw [hai, hbi] at hinit
      exact absurd hinit (by decide)
    · cases hpa : a.parent_id with
      | none => exact absurd hpa hap
      | some x =>
        cases hpb : b.parent_id with
        | none => exact absurd hpb hbp
        | some y => rfl

/-- C6, an instance: `"P1"` with variants `"V1"`, `"V2"`, processed twice from the empty
table. -/
theorem C6_unique_per_scope_witness :
    UniquePerScope
      (processProducts Env.sample "shopify" [productWithVariants, productWithVariants]
        worldVariants).world.rows :=
  C6_unique_per_scope Env.sample _
    (KeyedReachable.reconcile "shopify" [productWithVariants, productWithVariants]
      worldVariants
      (KeyedReachable.reconcile "shopify" [productWithVariants] World.empty
        KeyedReachable.empty (by decide))
      (by decide))

/-! ## Idempotence: claim C1 -/

theorem settled_root {env : Env} {rows : List Row} {p : JSVal}
    (h : settled env rows p = true) : found env rows (lookupKey p) true = true := by
  unfold settled at h
  rw [Bool.and_eq_true] at h
  exact h.1

theorem settled_children {env : Env} {rows : List Row} {p : JSVal}
    (h : settled env rows p = true) (hc : hasChildren env (childList p) = true) :
    ∃ vs, (childList p).iterate = some vs
      ∧ ∀ v ∈ vs, ∃ id, childKey v = some id ∧ found env rows id false = true := by
  unfold settled at h
  rw [Bool.and_eq_true] at h
  have h2 := h.2
  rw [if_pos hc] at h2
  cases hv : (childList p).iterate with
  | none => simp [hv] at h2
  | some vs =>
    simp only [hv, List.all_eq_true] at h2
    refine ⟨vs, rfl, ?_⟩
    intro v hmem
    have h3 := h2 v hmem
    cases hk : childKey v with
    | none => simp [hk] at h3
    | some id => exact ⟨id, rfl, by simpa [hk] using h3⟩

theorem settled_of {env : Env} {rows : List Row} {p : JSVal}
    (hroot : found env rows (lookupKey p) true = true)
    (hch : hasChildren env (childList p) = true →
      ∃ vs, (childList p).iterate = some vs
        ∧ ∀ v ∈ vs, ∃ id, childKey v = some id ∧ found env rows id false = true) :
    settled env rows p = true := by
  unfold settled
  rw [Bool.and_eq_true]
  refine ⟨hroot, ?_⟩
  by_cases hc : hasChildren env (childList p) = true
  · rw [if_pos hc]
    obtain ⟨vs, hv, hall⟩ := hch hc
    simp only [hv, List.all_eq_true]
    intro v hmem
    obtain ⟨id, hk, hf⟩ := hall v hmem
    simp [hk, hf]
  · rw [if_neg hc]

theorem settled_append {env : Env} {rows : List Row} {p : JSVal} (more : List Row)
    (h : settled env rows p = true) : settled env (rows ++ more) p = true := by
  refine settled_of (found_append more (settled_root h)) ?_
  intro hc
  obtain ⟨vs, hv, hall⟩ := settled_children h hc
  refine ⟨vs, hv, ?_⟩
  intro v hmem
  obtain ⟨id, hk, hf⟩ := hall v hmem
  exact ⟨id, hk, found_append more hf⟩

/-- The table after the variant loop is the table before followed by added rows. -/
theorem processChildrenLoop_rows (env : Env) (father : Option Row) (pfx : String)
    (vs : List JSVal) (w : World) :
    ∃ more, (processChildrenLoop env father pfx vs w).world.rows = w.rows ++ more := by
  obtain ⟨added, _, hr, _, _, _⟩ := processChildrenLoop_grows env father pfx (fun _ => True)
    (fun _ => True) (by intros; trivial) (by intros; trivial) (by intros; trivial) vs w
  exact ⟨added, hr⟩

/-- The table after `processProducts` is the table before followed by added rows. -/
theorem processProducts_rows (env : Env) (pfx : String) (ps : List JSVal) (w : World) :
    ∃ more, (processProducts env pfx ps w).world.rows = w.rows ++ more := by
  obtain ⟨added, _, hr, _, _, _⟩ := processProducts_grows env pfx (fun _ => True)
    (fun _ => True) (by intros; trivial) (by intros; trivial) (by intros; trivial) ps w
  exact ⟨added, hr⟩

/-- After a variant loop that returned, with the parent found, every variant with
consistent ids has a row in child scope. -/
theorem processChildrenLoop_settles (env : Env) (f : Row) (pfx : String) :
    ∀ (vs : List JSVal) (w w2 : World),
      processChildrenLoop env (some f) pfx vs w = Res.ok () w2 →
      (∀ v ∈ vs, ∀ id, childKey v = some id →
        sameKey env id (storedId env pfx true v) = true) →
      ∀ v ∈ vs, ∃ id, childKey v = some id ∧ found env w2.rows id false = true := by
  intro vs
  induction vs with
  | nil => intro w w2 _ _ v hv; simp at hv
  | cons v rest ih =>
    intro w w2 h hkeys
    have hrest : ∀ v1 ∈ rest, ∀ id, childKey v1 = some id →
        sameKey env id (storedId env pfx true v1) = true :=
      fun v1 h1 => hkeys v1 (List.mem_cons_of_mem v h1)
    rw [processChildrenLoop_cons] at h
    cases hk : childKey v with
    | none => simp [hk] at h
    | some id =>
      simp only [hk] at h
      cases hl : getProductByExternalId env id false w with
      | err e w1 => simp [hl] at h
      | ok res w1 =>
        obtain ⟨hres, hw1, _⟩ := getProductByExternalId_ok hl
        have hrows : w1.rows = w.rows := by rw [hw1]
        simp only [hl] at h
        have key : ∀ w3, found env w3.rows id false = true →
            processChildrenLoop env (some f) pfx rest w3 = Res.ok () w2 →
            ∀ v1 ∈ v :: rest, ∃ id1, childKey v1 = some id1
              ∧ found env w2.rows id1 false = true := by
          intro w3 hf3 h3 v1 hv1
          rcases List.mem_cons.mp hv1 with hv1 | hv1
          · subst hv1
            obtain ⟨more, hm⟩ := processChildrenLoop_rows env (some f) pfx rest w3
            rw [h3] at hm
            refine ⟨id, hk, ?_⟩
            have : w2.rows = w3.rows ++ more := hm
            rw [this]
            exact found_append more hf3
          · exact ih w3 w2 h3 hrest v1 hv1
        cases res with
        | some fnd =>
          simp only [] at h
          refine key w1 ?_ h
          unfold found
          rw [hrows, ← hres]
          rfl
        | none =>
          simp only [] at h
          cases hi : insertProduct env v pfx true (fatherId (some f))
              (fatherImage (some f)) w1 with
          | err e w3 => simp [hi] at h
          | ok a w3 =>
            simp only [hi] at h
            obtain ⟨r, k, hr3, hk1, hext, hpar, _⟩ :=
              insertProduct_keyed_row hi (hkeys v (List.mem_cons_self v rest) id hk)
            refine key w3 ?_ h
            unfold found
            rw [List.find?_isSome]
            refine ⟨r, by rw [hr3]; simp, ?_⟩
            rw [hk1]
            refine matchesLookup_of hext ?_
            rw [hpar]
            simp [fatherId, pgText]

/-- After a root step that returned, for a product with consistent ids, the table holds
a root row for the product. -/
theorem rootStep_found {env : Env} {pfx : String} {p : JSVal} {w1 w2 : World}
    {existing : Option Row}
    (hres : existing = w1.rows.find?
      (matchesLookup (pgText env (Param.val (lookupKey p))) true))
    (hp : wellKeyed env pfx p = true)
    (h : rootStep env p pfx existing w1 = Res.ok () w2) :
    found env w2.rows (lookupKey p) true = true := by
  unfold rootStep at h
  cases existing with
  | some fnd =>
    injection h with _ h2
    subst h2
    unfold found
    rw [← hres]
    rfl
  | none =>
    simp only [] at h
    obtain ⟨r, k, hr2, hk1, hext, hpar, _⟩ := insertProduct_keyed_row h (wellKeyed_root hp)
    have hparent : r.parent_id = none := by simpa using hpar
    unfold found
    rw [List.find?_isSome]
    refine ⟨r, by rw [hr2]; simp, ?_⟩
    rw [hk1]
    exact matchesLookup_of hext (by rw [hparent]; rfl)

/-- After a children step that returned, for a product with consistent ids whose root
is in the table, everything the loop body looks up for the product is in the table. -/
theorem childrenStep_settles {env : Env} {pfx : String} {p : JSVal} {w w3 : World}
    (hroot : found env w.rows (lookupKey p) true = true)
    (hp : wellKeyed env pfx p = true)
    (h : childrenStep env p pfx w = Res.ok () w3) :
    settled env w3.rows p = true := by
  unfold childrenStep at h
  by_cases hc : hasChildren env (childList p) = true
  · rw [if_pos hc] at h
    unfold processChildren at h
    cases hl : getProductByExternalId env (lookupKey p) true w with
    | err e w1 => simp [hl] at h
    | ok father w1 =>
      obtain ⟨hres, hw1, _⟩ := getProductByExternalId_ok hl
      have hrows : w1.rows = w.rows := by rw [hw1]
      simp only [hl] at h
      cases hv : (childList p).iterate with
      | none => simp [hv] at h
      | some vs =>
        simp only [hv] at h
        cases father with
        | none =>
          unfold found at hroot
          rw [← hres] at hroot
          simp at hroot
        | some f =>
          obtain ⟨more, hm⟩ := processChildrenLoop_rows env (some f) pfx vs w1
          rw [h] at hm
          have hm2 : w3.rows = w.rows ++ more := by rw [← hrows]; exact hm
          refine settled_of ?_ ?_
          · rw [hm2]
            exact found_append more hroot
          · intro _
            exact ⟨vs, hv, processChildrenLoop_settles env f pfx vs w1 w3 h
              (wellKeyed_children hp hc hv)⟩
  · rw [if_neg hc] at h
    injection h with _ h2
    subst h2
    exact settled_of hroot (fun hc2 => absurd hc2 hc)

/-- After a run that returned, on products with consistent ids, everything the loop
body looks up for any of the products is in the table. -/
theorem processProducts_settles (env : Env) (pfx : String) :
    ∀ (ps : List JSVal) (w w1 : World),
      processProducts env pfx ps w = Res.ok () w1 →
      (∀ p ∈ ps, wellKeyed env pfx p = true) →
      ∀ p ∈ ps, settled env w1.rows p = true := by
  intro ps
  induction ps with
  | nil => intro w w1 _ _ p hp; simp at hp
  | cons p rest ih =>
    intro w w1 h hps
    have hp := hps p (List.mem_cons_self p rest)
    have hrest : ∀ q ∈ rest, wellKeyed env pfx q = true :=
      fun q hq => hps q (List.mem_cons_of_mem p hq)
    rw [processProducts_cons] at h
    cases hl : getProductByExternalId env (lookupKey p) true w with
    | err e wa => simp [hl] at h
    | ok existing wa =>
      obtain ⟨hres, hwa, _⟩ := getProductByExternalId_ok hl
      have hrows : wa.rows = w.rows := by rw [hwa]
      simp only [hl] at h
      cases hi : rootStep env p pfx existing wa with
      | err e w2 => simp [hi] at h
      | ok a w2 =>
        simp only [hi] at h
        have hf2 := rootStep_found (by rw [hrows]; exact hres) hp hi
        cases hc : childrenStep env p pfx w2 with
        | err e w3 => simp [hc] at h
        | ok a w3 =>
          simp only [hc] at h
          have hs3 := childrenStep_settles hf2 hp hc
          obtain ⟨more, hm⟩ := processProducts_rows env pfx rest w3
          rw [h] at hm
          have hm2 : w1.rows = w3.rows ++ more := hm
          intro q hq
          rcases List.mem_cons.mp hq with hq | hq
          · subst hq
            rw [hm2]
            exact settled_append more hs3
          · exact ih w3 w1 h hrest q hq

/-- With a store that does not fail, a lookup returns the first selected row. -/
theorem getProductByExternalId_eq {env : Env}
    (hstore : ∀ log op, env.storeError log op = none) (id : JSVal) (init : Bool)
    (w : World) :
    getProductByExternalId env id init w
      = Res.ok (w.rows.find? (matchesLookup (pgText env (Param.val id)) init))
          { w with log := w.log ++ [Op.select id init] } := by
  unfold getProductByExternalId
  simp only [hstore]

/-- With a store that does not fail, the variant loop over variants that are all in the
table returns, sends lookups only and leaves the table and the counter as they were. -/
theorem processChildrenLoop_settled (env : Env) (father : Option Row) (pfx : String)
    (hstore : ∀ log op, env.storeError log op = none) :
    ∀ (vs : List JSVal) (w : World),
      (∀ v ∈ vs, ∃ id, childKey v = some id ∧ found env w.rows id false = true) →
      ∃ ops, processChildrenLoop env father pfx vs w
          = Res.ok () { w with log := w.log ++ ops }
        ∧ ∀ op ∈ ops, op.isInsert = false := by
  intro vs
  induction vs with
  | nil =>
    intro w _
    exact ⟨[], by simp [processChildrenLoop], by simp⟩
  | cons v rest ih =>
    intro w hall
    obtain ⟨id, hk, hf⟩ := hall v (List.mem_cons_self v rest)
    unfold found at hf
    cases hfind : w.rows.find? (matchesLookup (pgText env (Param.val id)) false) with
    | none => simp [hfind] at hf
    | some fnd =>
      obtain ⟨ops, hrun, hops⟩ := ih { w with log := w.log ++ [Op.select id false] }
        (fun v1 h1 => hall v1 (List.mem_cons_of_mem v h1))
      refine ⟨Op.select id false :: ops, ?_, ?_⟩
      · rw [processChildrenLoop_cons]
        simp only [hk, getProductByExternalId_eq hstore, hfind, hrun]
        simp
      · intro op hop
        rcases List.mem_cons.mp hop with h | h
        · subst h
          rfl
        · exact hops op h

/-- With a store that does not fail, processing products that are all settled in the
table returns, sends lookups only and leaves the table and the counter as they were. -/
theorem processProducts_settled (env : Env) (pfx : String)
    (hstore : ∀ log op, env.storeError log op = none) :
    ∀ (ps : List JSVal) (w : World),
      (∀ p ∈ ps, settled env w.rows p = true) →
      ∃ ops, processProducts env pfx ps w = Res.ok () { w with log := w.log ++ ops }
        ∧ ∀ op ∈ ops, op.isInsert = false := by
  intro ps
  induction ps with
  | nil =>
    intro w _
    exact ⟨[], by simp [processProducts], by simp⟩
  | cons p rest ih =>
    intro w hall
    have hp := hall p (List.mem_cons_self p rest)
    have hrest : ∀ q ∈ rest, settled env w.rows q = true :=
      fun q hq => hall q (List.mem_cons_of_mem p hq)
    have hroot := settled_root hp
    unfold found at hroot
    cases hfind : w.rows.find?
        (matchesLookup (pgText env (Param.val (lookupKey p))) true) with
    | none => simp [hfind] at hroot
    | some fnd =>
      by_cases hc : hasChildren env (childList p) = true
      · obtain ⟨vs, hv, hvs⟩ := settled_children hp hc
        obtain ⟨ops1, hrun1, hops1⟩ := processChildrenLoop_settled env (some fnd) pfx hstore
          vs { w with log := w.log ++ [Op.select (lookupKey p) true]
                                   ++ [Op.select (lookupKey p) true] } hvs
        obtain ⟨ops2, hrun2, hops2⟩ := ih
          { w with log := w.log ++ [Op.select (lookupKey p) true]
                            ++ [Op.select (lookupKey p) true] ++ ops1 } hrest
        refine ⟨Op.select (lookupKey p) true :: Op.select (lookupKey p) true
          :: (ops1 ++ ops2), ?_, ?_⟩
        · rw [processProducts_cons]
          simp only [getProductByExternalId_eq hstore, hfind, rootStep, childrenStep,
            if_pos hc, processChildren, hv, hrun1, hrun2]
          simp
        · intro op hop
          rcases List.mem_cons.mp hop with h | h
          · subst h
            rfl
          · rcases List.mem_cons.mp h with h | h
            · subst h
              rfl
            · rcases List.mem_append.mp h with h | h
              · exact hops1 op h
              · exact hops2 op h
      · obtain ⟨ops2, hrun2, hops2⟩ := ih
          { w with log := w.log ++ [Op.select (lookupKey p) true] } hrest
        refine ⟨Op.select (lookupKey p) true :: ops2, ?_, ?_⟩
        · rw [processProducts_cons]
          simp only [getProductByExternalId_eq hstore, hfind, rootStep, childrenStep,
            if_neg hc, hrun2]
          simp
        · intro op hop
          rcases List.mem_cons.mp hop with h | h
          · subst h
            rfl
          · exact hops2 op h

/-- C1 (fails on the code): with the storefront tag, the list `[{title: "T"}]` and the
empty table, the first run inserts one row and the second run inserts another: the
product has no id, the root lookup compares with `NULL` and finds nothing. -/
theorem C1_second_run_inserts :
    "shopify" = Env.sample.shopify
    ∧ (processProducts Env.sample "shopify" [productTitleOnly] World.empty).error = none
    ∧ (processProducts Env.sample "shopify" [productTitleOnly] worldTitleOnly).error = none
    ∧ worldTitleOnly.rows.length = 1
    ∧ (processProducts Env.sample "shopify" [productTitleOnly] worldTitleOnly).world.rows.length
        = 2
    ∧ ((processProducts Env.sample "shopify" [productTitleOnly] worldTitleOnly).world.log.drop
        worldTitleOnly.log.length).map Op.isInsert = [false, true] := by
  decide

/-- C1 (amended): for every list whose products and variants have present,
platform-consistent ids (`wellKeyed`), every tag, every initial table and a store that
does not fail: if `processProducts` returns on the list, then running it again on the
same list returns as well, sends lookups only (no `INSERT`), and leaves the table
exactly as the first run left it. -/
theorem C1_idempotent_when_keyed (env : Env) (pfx : String) (ps : List JSVal)
    (w w1 : World)
    (hstore : ∀ log op, env.storeError log op = none)
    (hkeys : ∀ p ∈ ps, wellKeyed env pfx p = true)
    (hrun : processProducts env pfx ps w = Res.ok () w1) :
    ∃ ops, processProducts env pfx ps w1 = Res.ok () { w1 with log := w1.log ++ ops }
      ∧ ∀ op ∈ ops, op.isInsert = false :=
  processProducts_settled env pfx hstore ps w1
    (processProducts_settles env pfx ps w w1 hrun hkeys)

/-- C1, an instance: `"P1"` with variants `"V1"`, `"V2"` on the empty table; the second
run leaves the three rows of the first. -/
theorem C1_idempotent_witness :
    ∃ ops, processProducts Env.sample "shopify" [productWithVariants] worldVariants
        = Res.ok () { worldVariants with log := worldVariants.log ++ ops }
      ∧ ∀ op ∈ ops, op.isInsert = false :=
  C1_idempotent_when_keyed Env.sample "shopify" [productWithVariants] World.empty
    worldVariants (fun _ _ => rfl) (by decide) rfl

/-! ## Platform adapter, storefront mapping: claim C13 -/

/-- A property read on a value that is not nullish is the field reading. -/
theorem JSVal.get_eq_field (v : JSVal) (k : String) (h : v.nullish = false) :
    v.get k = some (v.field k) := by
  obtain ⟨x, hx⟩ := JSVal.get_isSome v k h
  simp [JSVal.field, hx]

/-- The chain `product?.image?.src` evaluates to the top-level image source. -/
theorem imageSrc_chain (product : JSVal) :
    product.opt (fun p => do
      let im ← p.get "image"
      im.opt (fun i => i.get "src")) = some (imageSrc product) := by
  unfold imageSrc JSVal.opt
  by_cases hp : product.nullish = true
  · simp [hp]
  · have hp2 : product.nullish = false := by simpa using hp
    by_cases hi : (product.field "image").nullish = true
    · simp [hp2, hi, JSVal.get_eq_field product "image" hp2]
    · have hi2 : (product.field "image").nullish = false := by simpa using hi
      simp [hp2, hi2, JSVal.get_eq_field product "image" hp2,
        JSVal.get_eq_field _ "src" hi2]

/-- C13: with the storefront tag, for every payload that is not nullish, `prepareData`
returns, for a root, the thirteen values `product_id` fresh, `parent_id` null, `init`
true, `external_id` = the top-level `id`, `search_text` = `name` = `title`, `price`
null, `image` = the top-level image source, the serialized payload, two time stamps,
`sku` null, `store_product_id` = `id`; and for a child `parent_id` = the given parent
id, `init` false, `external_id` = `store_product_id` = the variant `id`,
`search_text` = `name` = the variant `title`, `price` = `Number` of the variant price,
`image` = the inherited image argument, `sku` = the variant `sku`. -/
theorem C13_shopify_row_mapping (env : Env) (hne : env.shopify ≠ env.vtex) (tick : Nat)
    (product parent_id image : JSVal) (hobj : product.nullish = false) :
    prepareData env tick product env.shopify false parent_id image
      = some [Param.val (JSVal.str (env.uuidv4 tick)), Param.val JSVal.null,
              Param.val (JSVal.bool true), Param.val (product.field "id"),
              Param.val (product.field "title"), Param.val (product.field "title"),
              Param.val JSVal.null, Param.val (imageSrc product), Param.json product,
              Param.date (env.now (tick + 1)), Param.date (env.now (tick + 2)),
              Param.val JSVal.null, Param.val (product.field "id")]
    ∧ prepareData env tick product env.shopify true parent_id image
      = some [Param.val (JSVal.str (env.uuidv4 tick)), Param.val parent_id,
              Param.val (JSVal.bool false), Param.val (product.field "id"),
              Param.val (product.field "title"), Param.val (product.field "title"),
              Param.number (product.field "price"), Param.val image, Param.json product,
              Param.date (env.now (tick + 1)), Param.date (env.now (tick + 2)),
              Param.val (product.field "sku"), Param.val (product.field "id")] := by
  constructor
  · unfold prepareData
    rw [if_neg hne, if_pos rfl]
    simp only [Bool.false_eq_true, if_false, imageSrc_chain,
      JSVal.get_eq_field product _ hobj]
    rfl
  · unfold prepareData
    rw [if_neg hne, if_pos rfl]
    simp only [if_true, JSVal.get_eq_field product _ hobj]
    rfl

/-- C13, an instance: the root `{id: "P1", title: "T", image: {src: "img"}}` is stored
with `external_id` `"P1"`, name `"T"`, no price, image `"img"`, no sku; the child
`{id: "V1", title: "one", price: "5.00", sku: "S1"}` with parent `"u"` and inherited
image `"img"` is stored with these, `external_id` `"V1"`, name `"one"`, sku `"S1"`. -/
theorem C13_shopify_row_mapping_witness :
    (bindRow Env.sample
      [Param.val (JSVal.str (Env.sample.uuidv4 0)), Param.val JSVal.null,
       Param.val (JSVal.bool true), Param.val (productWithImage.field "id"),
       Param.val (productWithImage.field "title"),
       Param.val (productWithImage.field "title"),
       Param.val JSVal.null, Param.val (imageSrc productWithImage),
       Param.json productWithImage,
       Param.date (Env.sample.now (0 + 1)), Param.date (Env.sample.now (0 + 2)),
       Param.val JSVal.null, Param.val (productWithImage.field "id")])
      = some rowWithImage
    ∧ prepareData Env.sample 0 productWithImage Env.sample.shopify false JSVal.null
        (JSVal.str "")
      = some [Param.val (JSVal.str (Env.sample.uuidv4 0)), Param.val JSVal.null,
              Param.val (JSVal.bool true), Param.val (productWithImage.field "id"),
              Param.val (productWithImage.field "title"),
              Param.val (productWithImage.field "title"),
              Param.val JSVal.null, Param.val (imageSrc productWithImage),
              Param.json productWithImage,
              Param.date (Env.sample.now (0 + 1)), Param.date (Env.sample.now (0 + 2)),
              Param.val JSVal.null, Param.val (productWithImage.field "id")]
    ∧ ((prepareData Env.sample 3 variantWithSku Env.sample.shopify true (JSVal.str "u")
        (JSVal.str "img")).bind (bindRow Env.sample)).map
          (fun r => (r.parent_id, r.external_id, r.name, r.image, r.sku))
      = some (some "u", some "V1", some "one", some "img", some "S1") :=
  ⟨by decide,
   (C13_shopify_row_mapping Env.sample (by decide) 0 productWithImage JSVal.null
      (JSVal.str "") rfl).1,
   by
    rw [(C13_shopify_row_mapping Env.sample (by decide) 3 variantWithSku (JSVal.str "u")
      (JSVal.str "img") rfl).2]
    rfl⟩

/-! ## Platform adapter, catalog mapping and inherited image: claims C14, C11 -/

/-- A catalog child list that was returned: the price and image chains evaluated, and
the list is the one of utils.js lines 20-34. -/
theorem prepareData_vtex_child_some {env : Env} {tick : Nat} {item parent_id image : JSVal}
    {data : List Param}
    (hd : prepareData env tick item env.vtex true parent_id image = some data) :
    ∃ price img, offerPrice item = some price ∧ ownImage item = some img
      ∧ item.nullish = false
      ∧ data = [Param.val (JSVal.str (env.uuidv4 tick)), Param.val parent_id,
                Param.val (JSVal.bool false), Param.val (item.field "itemId"),
                Param.val (item.field "name"), Param.val (item.field "name"),
                Param.number price, Param.val img, Param.json item,
                Param.date (env.now (tick + 1)), Param.date (env.now (tick + 2)),
                Param.val JSVal.null, Param.val (item.field "itemId")] := by
  unfold prepareData at hd
  rw [if_pos rfl] at hd
  simp only [if_true, Option.bind_eq_bind, Option.bind_eq_some, Option.pure_def,
    Option.some.injEq] at hd
  obtain ⟨a, ha, b, hb, c, hc, d, hd1, e, he, f, hf, g, hg, h, hh, hdata⟩ := hd
  have hobj : item.nullish = false := by
    cases item <;> simp [JSVal.get] at ha <;> rfl
  refine ⟨e, h, ?_, ?_, hobj, ?_⟩
  · simp [offerPrice, hc, hd1, he]
  · simp [ownImage, hf, hg, hh]
  · rw [← hdata]
    simp [JSVal.field, ha, hb]

/-- C14 (fails on the code): for the catalog product with items `"V1"` (image `"img1"`)
and `"V2"` (image `"img2"`) the root row carries the first nested item's first image
`"img1"`, while the child row of `"V2"` carries `"img2"`, the first image of the item
itself, also when `"img1"` is passed as inherited image; and for an item without an
`images` list `prepareData` raises instead of returning a row. -/
theorem C14_vtex_child_image_is_own :
    "vtex" = Env.sample.vtex
    ∧ ((prepareData Env.sample 0 catalogProduct "vtex" false JSVal.null
          (JSVal.str "")).bind (bindRow Env.sample)).map (fun r => r.image)
        = some (some "img1")
    ∧ ((prepareData Env.sample 3 (catalogItem "V2" "img2") "vtex" true (JSVal.str "u")
          (JSVal.str "img1")).bind (bindRow Env.sample)).map (fun r => r.image)
        = some (some "img2")
    ∧ (prepareData Env.sample 3 itemNoImages "vtex" true (JSVal.str "u")
          (JSVal.str "img1")).isNone = true := by
  decide

/-- C14 (amended): with the catalog tag, whenever the image chain
`items[0]?.images[0]?.imageUrl` evaluates on a payload that is not nullish,
`prepareData` returns for a root `product_id` fresh, `parent_id` null, `init` true,
`external_id` = `store_product_id` = `productId`, `search_text` = `name` =
`productName`, `price` null, `image` = the first nested item's first image, `sku` null;
and whenever the chains `sellers[0]?.commertialOffer?.Price` and
`images[0]?.imageUrl` evaluate on an item, it returns for a child `parent_id` = the
given parent id, `init` false, `external_id` = `store_product_id` = `itemId`,
`search_text` = `name` = the item's `name`, `price` = `Number` of the nested
commercial-offer price, `image` = the first image of the item itself (the inherited
image argument is not used), `sku` null. -/
theorem C14_vtex_row_mapping (env : Env) (tick : Nat) (product parent_id image : JSVal) :
    (∀ img, product.nullish = false →
      firstItemImage (product.field "items") = some img →
      prepareData env tick product env.vtex false parent_id image
        = some [Param.val (JSVal.str (env.uuidv4 tick)), Param.val JSVal.null,
                Param.val (JSVal.bool true), Param.val (product.field "productId"),
                Param.val (product.field "productName"),
                Param.val (product.field "productName"),
                Param.val JSVal.null, Param.val img, Param.json product,
                Param.date (env.now (tick + 1)), Param.date (env.now (tick + 2)),
                Param.val JSVal.null, Param.val (product.field "productId")])
    ∧ (∀ price img, offerPrice product = some price → ownImage product = some img →
      prepareData env tick product env.vtex true parent_id image
        = some [Param.val (JSVal.str (env.uuidv4 tick)), Param.val parent_id,
                Param.val (JSVal.bool false), Param.val (product.field "itemId"),
                Param.val (product.field "name"), Param.val (product.field "name"),
                Param.number price, Param.val img, Param.json product,
                Param.date (env.now (tick + 1)), Param.date (env.now (tick + 2)),
                Param.val JSVal.null, Param.val (product.field "itemId")]) := by
  constructor
  · intro img hobj himg
    unfold prepareData
    rw [if_pos rfl]
    simp only [Bool.false_eq_true, if_false, JSVal.get_eq_field product _ hobj]
    simp [himg]
  · intro price img hprice himg
    have hobj : product.nullish = false := by
      cases product <;> simp [ownImage, JSVal.get] at himg <;> rfl
    unfold offerPrice at hprice
    unfold ownImage at himg
    simp only [JSVal.get_eq_field product _ hobj, Option.bind_eq_bind, Option.some_bind]
      at hprice himg
    unfold prepareData
    rw [if_pos rfl]
    simp only [if_true, JSVal.get_eq_field product _ hobj, Option.bind_eq_bind,
      Option.some_bind]
    rw [Option.bind_eq_some] at hprice himg
    obtain ⟨s0, hs0, hp⟩ := hprice
    obtain ⟨im0, him0, hi⟩ := himg
    simp [hs0, hp, him0, hi]

/-- C14, an instance: the catalog product with items `"V1"`, `"V2"` and its item
`"V2"`. -/
theorem C14_vtex_row_mapping_witness :
    prepareData Env.sample 3 (catalogItem "V2" "img2") Env.sample.vtex true (JSVal.str "u")
        (JSVal.str "img1")
      = some [Param.val (JSVal.str (Env.sample.uuidv4 3)), Param.val (JSVal.str "u"),
              Param.val (JSVal.bool false),
              Param.val ((catalogItem "V2" "img2").field "itemId"),
              Param.val ((catalogItem "V2" "img2").field "name"),
              Param.val ((catalogItem "V2" "img2").field "name"),
              Param.number JSVal.undefined, Param.val (JSVal.str "img2"),
              Param.json (catalogItem "V2" "img2"),
              Param.date (Env.sample.now (3 + 1)), Param.date (Env.sample.now (3 + 2)),
              Param.val JSVal.null,
              Param.val ((catalogItem "V2" "img2").field "itemId")] :=
  (C14_vtex_row_mapping Env.sample 3 (catalogItem "V2" "img2") (JSVal.str "u")
    (JSVal.str "img1")).2 JSVal.undefined (JSVal.str "img2") rfl rfl

/-- The image column of a child row bound from the adapter's list: with the catalog tag
the first image of the item itself, with the storefront tag the inherited image
argument. -/
theorem prepareData_child_image {env : Env} {tick : Nat} {product : JSVal} {pfx : String}
    {parent_id image : JSVal} {data : List Param} {r : Row}
    (hd : prepareData env tick product pfx true parent_id image = some data)
    (hb : bindRow env data = some r) :
    (pfx = env.vtex → ∃ img, ownImage product = some img
      ∧ r.image = pgText env (Param.val img))
    ∧ (pfx ≠ env.vtex → pfx = env.shopify → r.image = pgText env (Param.val image)) := by
  constructor
  · intro hv
    subst hv
    obtain ⟨price, img, _, himg, _, hdata⟩ := prepareData_vtex_child_some hd
    subst hdata
    simp only [bindRow, pgText, Option.some.injEq] at hb
    subst hb
    exact ⟨img, himg, rfl⟩
  · intro hv hs
    subst hs
    unfold prepareData at hd
    rw [if_neg hv, if_pos rfl] at hd
    simp only [if_true, Option.bind_eq_bind, Option.bind_eq_some, Option.pure_def,
      Option.some.injEq] at hd
    obtain ⟨a, _, b, _, c, _, d, _, hdata⟩ := hd
    subst hdata
    simp only [bindRow, pgText, Option.some.injEq] at hb
    subst hb
    rfl

/-- C11 (fails on the code): with the catalog tag, the product `"P1"` whose item `"V1"`
has the image `"img1"` and whose item `"V2"` has no image gives the root row with image
`"img1"` and two child rows with `parent_id` `"u"`, the root's generated id; the row of
`"V2"` has no image (`NULL`), not `"img1"`. With the storefront tag, a root without an
image is stored with image `NULL` and its child with the image `""`. -/
theorem C11_child_image_not_inherited :
    "vtex" = Env.sample.vtex
    ∧ (processProducts Env.sample "vtex" [catalogProductBare] World.empty).world.rows.map
        (fun r => (r.external_id, r.parent_id, r.image))
      = [(some "P1", none, some "img1"), (some "V1", some "u", some "img1"),
         (some "V2", some "u", none)]
    ∧ (processProducts Env.sample "shopify" [productNoImageOneVariant]
        World.empty).world.rows.map (fun r => (r.external_id, r.parent_id, r.image))
      = [(some "P1", none, none), (some "V1", some "u", some "")] := by
  decide

/-- Whatever its outcome, the rows the variant loop adds are, in input order, the rows
bound from the adapter's child lists of the variants it inserted, which form a sublist
of the variants visited. -/
theorem processChildrenLoop_provenance (env : Env) (father : Option Row) (pfx : String) :
    ∀ (vs : List JSVal) (w : World),
      ∃ ins added, ins.Sublist vs
        ∧ (processChildrenLoop env father pfx vs w).world.rows = w.rows ++ added
        ∧ List.Forall₂ (fun v r => ∃ tick data,
            prepareData env tick v pfx true (fatherId father) (fatherImage father) = some data
            ∧ bindRow env data = some r) ins added := by
  intro vs
  induction vs with
  | nil =>
    intro w
    exact ⟨[], [], List.Sublist.refl [], by simp [processChildrenLoop, Res.world],
      List.Forall₂.nil⟩
  | cons v rest ih =>
    intro w
    rw [processChildrenLoop_cons]
    cases hk : childKey v with
    | none =>
      exact ⟨[], [], List.nil_sublist _, by simp [Res.world], List.Forall₂.nil⟩
    | some id =>
      simp only []
      cases hl : getProductByExternalId env id false w with
      | err e w1 =>
        obtain ⟨hw1, _⟩ := getProductByExternalId_err hl
        exact ⟨[], [], List.nil_sublist _, by simp [Res.world, hw1], List.Forall₂.nil⟩
      | ok res w1 =>
        obtain ⟨_, hw1, _⟩ := getProductByExternalId_ok hl
        have hrows : w1.rows = w.rows := by rw [hw1]
        cases res with
        | some fnd =>
          obtain ⟨ins, added, hsub, hr, hall⟩ := ih w1
          exact ⟨ins, added, List.Sublist.cons v hsub, by rw [← hrows]; exact hr, hall⟩
        | none =>
          simp only []
          cases hi : insertProduct env v pfx true (fatherId father) (fatherImage father)
              w1 with
          | err e w2 =>
            obtain ⟨hr2, _⟩ := insertProduct_err hi
            exact ⟨[], [], List.nil_sublist _, by simp [Res.world, hr2, hrows],
              List.Forall₂.nil⟩
          | ok a w2 =>
            obtain ⟨data, r, hd, hb, _, hw2⟩ := insertProduct_ok hi
            have hr2 : w2.rows = w.rows ++ [r] := by rw [hw2, hrows]
            obtain ⟨ins, added, hsub, hr, hall⟩ := ih w2
            refine ⟨v :: ins, r :: added, List.Sublist.cons₂ v hsub, ?_,
              List.Forall₂.cons ⟨w1.tick, data, hd, hb⟩ hall⟩
            show (processChildrenLoop env father pfx rest w2).world.rows = _
            rw [hr, hr2]
            simp

/-- Every second component of a pointwise related pair of lists has a partner. -/
theorem forall₂_partner {α β : Type} {R : α → β → Prop} {l1 : List α} {l2 : List β}
    (h : List.Forall₂ R l1 l2) : ∀ b ∈ l2, ∃ a ∈ l1, R a b := by
  induction h with
  | nil => intro b hb; simp at hb
  | cons hab _ ih =>
    intro b hb
    rcases List.mem_cons.mp hb with hb | hb
    · subst hb
      exact ⟨_, List.mem_cons_self _ _, hab⟩
    · obtain ⟨a, ha, hR⟩ := ih b hb
      exact ⟨a, List.mem_cons_of_mem _ ha, hR⟩

/-- C11 (amended): when the root lookup of `processChildren` finds the row `f`, every
child row it adds has `parent_id` equal to the generated `product_id` of `f`; with the
storefront tag the row's image is the image stored on `f`, and the empty string when
`f` has none; with the catalog tag the rows added are, in input order, the rows of the
variants it inserted (a sublist `ins` of the variants iterated), and the row of a
variant `v` has `external_id` = the `itemId` of `v` and image = the first image of `v`
itself (`images[0]?.imageUrl`, `NULL` when the `images` list of `v` is empty): the
image of `f` is not used. -/
theorem C11_inherited_image (env : Env) (pfx : String) (variants external_id : JSVal)
    (w : World) (f : Row)
    (hf : w.rows.find? (matchesLookup (pgText env (Param.val external_id)) true) = some f) :
    ∃ added, (processChildren env variants pfx external_id w).world.rows = w.rows ++ added
      ∧ (pfx ≠ env.vtex → pfx = env.shopify →
          ∀ r ∈ added, r.parent_id = some f.product_id ∧ r.image = some (f.image.getD ""))
      ∧ (pfx = env.vtex →
          ∃ ins, (∀ vs, variants.iterate = some vs → ins.Sublist vs)
            ∧ List.Forall₂ (fun v r => r.parent_id = some f.product_id
                ∧ ∃ img, ownImage v = some img
                    ∧ r.external_id = pgText env (Param.val (v.field "itemId"))
                    ∧ r.image = pgText env (Param.val img)) ins added) := by
  unfold processChildren
  cases hl : getProductByExternalId env external_id true w with
  | err e w1 =>
    obtain ⟨hw1, _⟩ := getProductByExternalId_err hl
    exact ⟨[], by simp [Res.world, hw1], by simp,
      fun _ => ⟨[], fun _ _ => List.nil_sublist _, List.Forall₂.nil⟩⟩
  | ok father w1 =>
    obtain ⟨hfather, hw1, _⟩ := getProductByExternalId_ok hl
    rw [hf] at hfather
    subst hfather
    cases hv : variants.iterate with
    | none =>
      exact ⟨[], by simp [Res.world, hw1], by simp,
        fun _ => ⟨[], fun _ _ => List.nil_sublist _, List.Forall₂.nil⟩⟩
    | some vs =>
      simp only []
      obtain ⟨ins, added, hsub, hr, hall⟩ :=
        processChildrenLoop_provenance env (some f) pfx vs w1
      have hrel : List.Forall₂ (fun v r => r.parent_id = some f.product_id
          ∧ (pfx ≠ env.vtex → pfx = env.shopify → r.image = some (f.image.getD ""))
          ∧ (pfx = env.vtex → ∃ img, ownImage v = some img
              ∧ r.external_id = pgText env (Param.val (v.field "itemId"))
              ∧ r.image = pgText env (Param.val img))) ins added := by
        refine List.Forall₂.imp ?_ hall
        intro v r hvr
        obtain ⟨tick, data, hd, hb⟩ := hvr
        obtain ⟨_, hpar, _, hext⟩ := prepareData_row hd hb
        obtain ⟨hvt, hsh⟩ := prepareData_child_image hd hb
        refine ⟨by simpa [fatherId, pgText] using hpar, ?_, ?_⟩
        · intro h1 h2
          rw [hsh h1 h2]
          cases hi : f.image with
          | none => simp [fatherImage, hi, pgText]
          | some s =>
            by_cases hs : s = ""
            · simp [fatherImage, hi, pgText, hs]
            · simp [fatherImage, hi, pgText, hs]
        · intro h1
          obtain ⟨img, himg, hri⟩ := hvt h1
          refine ⟨img, himg, ?_, hri⟩
          rw [hext]
          simp [storedId, h1, JSVal.field]
      refine ⟨added, by rw [hr, hw1], ?_, ?_⟩
      · intro h1 h2 r hmem
        obtain ⟨v, _, hR⟩ := forall₂_partner hrel r hmem
        exact ⟨hR.1, hR.2.1 h1 h2⟩
      · intro h1
        refine ⟨ins, ?_, ?_⟩
        · intro vs2 hvs2
          rw [Option.some.injEq] at hvs2
          rw [← hvs2]
          exact hsub
        · refine List.Forall₂.imp ?_ hrel
          intro v r hR
          exact ⟨hR.1, hR.2.2 h1⟩

/-- C11, an instance: the storefront root `"P1"` with image `"img"` is in the table; its
variants `"V1"`, `"V2"` are added with `parent_id` `"u"` and image `"img"`. With the
catalog tag and the root `"P3"` in the table, the rows added for the items `"V1"`
(image `"img1"`) and `"V2"` (no image) pair with a sublist of the two items, each row
with the image of its own item. -/
theorem C11_inherited_image_witness :
    (∃ added, (processChildren Env.sample
        (JSVal.arr [JSVal.obj [("id", JSVal.str "V1")], JSVal.obj [("id", JSVal.str "V2")]])
        "shopify" (JSVal.str "P1") worldWithImage).world.rows = worldWithImage.rows ++ added
      ∧ ∀ r ∈ added, r.parent_id = some rowWithImage.product_id
          ∧ r.image = some (rowWithImage.image.getD ""))
    ∧ (∃ added ins, (processChildren Env.sample
        (JSVal.arr [catalogItem "V1" "img1", catalogItemNoImage "V2"])
        "vtex" (JSVal.str "P3") worldCatalogRoot).world.rows = worldCatalogRoot.rows ++ added
      ∧ ins.Sublist [catalogItem "V1" "img1", catalogItemNoImage "V2"]
      ∧ List.Forall₂ (fun v r => r.parent_id = some rowP3.product_id
          ∧ ∃ img, ownImage v = some img
              ∧ r.external_id = pgText Env.sample (Param.val (v.field "itemId"))
              ∧ r.image = pgText Env.sample (Param.val img)) ins added) := by
  constructor
  · obtain ⟨added, hr, hs, _⟩ := C11_inherited_image Env.sample "shopify"
      (JSVal.arr [JSVal.obj [("id", JSVal.str "V1")], JSVal.obj [("id", JSVal.str "V2")]])
      (JSVal.str "P1") worldWithImage rowWithImage (by decide)
    exact ⟨added, hr, hs (by decide) rfl⟩
  · obtain ⟨added, hr, _, hv⟩ := C11_inherited_image Env.sample "vtex"
      (JSVal.arr [catalogItem "V1" "img1", catalogItemNoImage "V2"])
      (JSVal.str "P3") worldCatalogRoot rowP3 (by decide)
    obtain ⟨ins, hsub, hall⟩ := hv rfl
    exact ⟨added, ins, hr, hsub _ rfl, hall⟩

/-! ## Canonical defaults and the API response: claims C12, C15 -/

/-- C12 (fails on the code): for the payload
`{id: "P2", title: "T", image: null, variants: []}`, which has no image source and no
`items`, `new Product(raw)` raises a `TypeError` instead of giving image `''`, price `0`
and the three names `"T"`. For `{productId: "P3", productName: "N", items: []}` it
returns image `''`, the three names `"N"` and price `0`, and for
`{id: "P1", title: "T", image: {src: "img"}}` the image `"img"`. -/
theorem C12_canonical_defaults_raise (uuid : String) :
    (Product.new uuid rawNullImage).isNone = true
    ∧ (Product.new uuid rawEmptyItems).map Product.summary
        = some (some "", some "N", some "N", some "N", some 0)
    ∧ (Product.new uuid productWithImage).map Product.summary
        = some (some "img", some "T", some "T", some "T", some 0) := by
  refine ⟨rfl, rfl, rfl⟩

/-- The list built by `products.map(...)` has one product per raw value. -/
theorem newProducts_length (env : Env) :
    ∀ (products : List JSVal) (tick : Nat) (items : List Product),
      newProducts env tick products = some items → items.length = products.length := by
  intro products
  induction products with
  | nil =>
    intro tick items h
    simp [newProducts] at h
    subst h
    rfl
  | cons p rest ih =>
    intro tick items h
    unfold newProducts at h
    cases hp : Product.new (env.uuidv4 tick) p with
    | none => simp [hp] at h
    | some q =>
      simp only [hp] at h
      cases hr : newProducts env (tick + 1) rest with
      | none => simp [hr] at h
      | some qs =>
        simp only [hr, Option.some.injEq] at h
        subst h
        simp [ih (tick + 1) qs hr]

/-- When the reconciliation returns and every constructor returns, `getProductsPrefix`
returns `success` true, message `'OK'`, `count` the length of the raw list and `items`
the constructed products. -/
theorem getProductsPrefix_ok (env : Env) (storeConfig : JSVal) (products : List JSVal)
    (pfx : String) (w w1 : World) (items : List Product)
    (hconf : storeConfig.truthy = true)
    (hrun : processProducts env pfx products w = Res.ok () w1)
    (hitems : newProducts env w1.tick products = some items) :
    (getProductsPrefix env storeConfig products pfx w).response
      = some { success := true, message := "OK", count := products.length,
               items := items } := by
  unfold getProductsPrefix
  simp [hconf, hrun, hitems, ApiRes.response]

/-- C15 (fails on the code): for the list `[{id: "P1", title: "T"}]` returned by the
storefront client and the empty table the reconciliation succeeds and inserts the
root, but `getProductsPrefix` does not return a response: the `Product` constructor
raises a `TypeError` for the product, which has no image and no `items`. -/
theorem C15_response_raises :
    (JSVal.str "shopify").truthy = true
    ∧ (processProducts Env.sample "shopify" [plainProduct "P1"] World.empty).error = none
    ∧ (processProducts Env.sample "shopify" [plainProduct "P1"]
        World.empty).world.rows.length = 1
    ∧ (getProductsPrefix Env.sample (JSVal.str "shopify") [plainProduct "P1"] "shopify"
        World.empty).response.isNone = true
    ∧ (getProductsPrefix Env.sample (JSVal.str "shopify") [plainProduct "P1"] "shopify"
        World.empty).raisedError = some Err.typeError := by
  decide

/-- Two computations that bind the same value and agree under `h` afterwards agree
under `h`. -/
theorem map_bind_congr {α β γ : Type} (x : Option α) (f g : α → Option β) (h : β → γ)
    (hfg : ∀ a, (f a).map h = (g a).map h) : (x.bind f).map h = (x.bind g).map h := by
  cases x with
  | none => rfl
  | some a => exact hfg a

/-- The constructor uses its `uuidv4()` reading for `product_id` only. -/
theorem Product.new_withoutId (u1 u2 : String) (info : JSVal) :
    (Product.new u1 info).map Product.withoutId
      = (Product.new u2 info).map Product.withoutId := by
  unfold Product.new
  repeat (refine map_bind_congr _ _ _ _ (fun _ => ?_))
  rfl

/-- The products built from a raw list are the same, up to the generated `product_id`,
whatever the readings of `uuidv4()`. -/
theorem newProducts_withoutId (env : Env) :
    ∀ (products : List JSVal) (t1 t2 : Nat),
      (newProducts env t1 products).map (List.map Product.withoutId)
        = (newProducts env t2 products).map (List.map Product.withoutId) := by
  intro products
  induction products with
  | nil => intro t1 t2; rfl
  | cons p rest ih =>
    intro t1 t2
    have hp := Product.new_withoutId (env.uuidv4 t1) (env.uuidv4 t2) p
    have hr := ih (t1 + 1) (t2 + 1)
    unfold newProducts
    cases h1 : Product.new (env.uuidv4 t1) p with
    | none =>
      cases h2 : Product.new (env.uuidv4 t2) p with
      | none => rfl
      | some q2 => simp [h1, h2] at hp
    | some q1 =>
      cases h2 : Product.new (env.uuidv4 t2) p with
      | none => simp [h1, h2] at hp
      | some q2 =>
        simp only [h1, h2, Option.map_some', Option.some.injEq] at hp
        cases h3 : newProducts env (t1 + 1) rest with
        | none =>
          cases h4 : newProducts env (t2 + 1) rest with
          | none => rfl
          | some r2 => simp [h3, h4] at hr
        | some r1 =>
          cases h4 : newProducts env (t2 + 1) rest with
          | none => simp [h3, h4] at hr
          | some r2 =>
            simp only [h3, h4, Option.map_some', Option.some.injEq] at hr
            simp [hp, hr]

/-! ## Child list extraction: claim C16 -/

/-- The value of `product?.items || product?.variants` is the `items` field when that
field is truthy and the `variants` field otherwise. -/
theorem childList_eq (p : JSVal) :
    childList p
      = (if (p.field "items").truthy then p.field "items" else p.field "variants") := by
  unfold childList JSVal.field
  by_cases hp : p.nullish = true
  · cases p <;> simp [JSVal.nullish] at hp <;> simp [JSVal.nullish, JSVal.get, JSVal.truthy]
  · have hp2 : p.nullish = false := by simpa using hp
    simp [hp2]

/-- C16 (fails on the code): with the storefront tag and the empty table, the product
`{id: "P1", title: "T", items: [], variants: [{id: "V1"}]}` has its root inserted and
nothing else: the empty `items` list is truthy, so `items || variants` is `[]`, and no
statement is sent for the variant `"V1"`. -/
theorem C16_empty_items_hide_variants :
    (processProducts Env.sample "shopify" [productEmptyItems] World.empty).error = none
    ∧ (processProducts Env.sample "shopify" [productEmptyItems] World.empty).world.rows.map
        (fun r => r.external_id) = [some "P1"]
    ∧ (processProducts Env.sample "shopify" [productEmptyItems] World.empty).world.log.map
        Op.isInsert = [false, true]
    ∧ hasChildren Env.sample (childList productEmptyItems) = false := by
  decide

/-- C16 (amended): for every raw product, the value `processProducts` tests and hands to
`processChildren` is the `items` field when that field is truthy (an empty list is
truthy) and the `variants` field otherwise; `processChildren` is called with it exactly
when it is truthy with `length > 0`, and otherwise no root re-fetch, child lookup or
child insert is made for the product. In particular a product whose `items` field is
an empty list has no children processed, whatever its `variants` field, and so has a
product whose two fields are both empty or absent. -/
theorem C16_child_list_extraction (env : Env) (pfx : String) (p : JSVal) (w : World) :
    childList p
      = (if (p.field "items").truthy then p.field "items" else p.field "variants")
    ∧ (hasChildren env (childList p) = true →
        childrenStep env p pfx w = processChildren env (childList p) pfx (lookupKey p) w)
    ∧ (hasChildren env (childList p) = false → childrenStep env p pfx w = Res.ok () w)
    ∧ (p.field "items" = JSVal.arr [] → childrenStep env p pfx w = Res.ok () w)
    ∧ (emptyOrAbsent (p.field "items") = true → emptyOrAbsent (p.field "variants") = true →
        childrenStep env p pfx w = Res.ok () w) := by
  have hstop : hasChildren env (childList p) = false →
      childrenStep env p pfx w = Res.ok () w := by
    intro h
    unfold childrenStep
    simp [h]
  refine ⟨childList_eq p, ?_, hstop, ?_, ?_⟩
  · intro h
    unfold childrenStep
    simp [h]
  · intro h
    apply hstop
    rw [childList_eq, h]
    simp [JSVal.truthy, hasChildren, JSVal.get, gtZero]
  · intro hi hv
    apply hstop
    rw [childList_eq]
    cases hitems : p.field "items" with
    | undefined | null =>
      cases hvars : p.field "variants" with
      | undefined | null => simp [JSVal.truthy, hasChildren]
      | arr xs =>
        cases xs with
        | nil => simp [JSVal.truthy, hasChildren, JSVal.get, gtZero]
        | cons x t => simp [hvars, emptyOrAbsent] at hv
      | _ => simp [hvars, emptyOrAbsent] at hv
    | arr xs =>
      cases xs with
      | nil => simp [JSVal.truthy, hasChildren, JSVal.get, gtZero]
      | cons x t => simp [hitems, emptyOrAbsent] at hi
    | _ => simp [hitems, emptyOrAbsent] at hi

/-- C16, an instance: the children step of
`{id: "P1", title: "T", items: [], variants: [{id: "V1"}]}` leaves the state as it was. -/
theorem C16_child_list_extraction_witness :
    childrenStep Env.sample productEmptyItems "shopify" World.empty
      = Res.ok () World.empty :=
  (C16_child_list_extraction Env.sample "shopify" productEmptyItems World.empty).2.2.2.1 rfl

/-! ## The storefront run returns -/

/-- A list the adapter returned for a supported tag binds to a row. -/
theorem bindRow_of_prepareData {env : Env} {tick : Nat} {product : JSVal} {pfx : String}
    {children : Bool} {parent_id image : JSVal} {data : List Param}
    (hd : prepareData env tick product pfx children parent_id image = some data)
    (hlen : data.length = 13) : ∃ r, bindRow env data = some r := by
  unfold prepareData at hd
  by_cases hv : pfx = env.vtex
  · cases children
    · simp only [hv, if_true, Bool.false_eq_true, if_false, Option.bind_eq_bind,
        Option.bind_eq_some, Option.pure_def, Option.some.injEq] at hd
      obtain ⟨a, _, b, _, c, _, d, _, hdata⟩ := hd
      subst hdata
      simp [bindRow, pgText]
    · simp only [hv, if_true, Option.bind_eq_bind,
        Option.bind_eq_some, Option.pure_def, Option.some.injEq] at hd
      obtain ⟨a, _, b, _, c, _, d, _, e, _, f, _, g, _, h, _, hdata⟩ := hd
      subst hdata
      simp [bindRow, pgText]
  · by_cases hs : pfx = env.shopify
    · subst hs
      rw [if_neg hv, if_pos rfl] at hd
      cases children
      · simp only [Bool.false_eq_true, if_false, Option.bind_eq_bind,
          Option.bind_eq_some, Option.pure_def, Option.some.injEq] at hd
        obtain ⟨a, _, b, _, c, _, hdata⟩ := hd
        subst hdata
        simp [bindRow, pgText]
      · simp only [if_true, Option.bind_eq_bind,
          Option.bind_eq_some, Option.pure_def, Option.some.injEq] at hd
        obtain ⟨a, _, b, _, c, _, d, _, hdata⟩ := hd
        subst hdata
        simp [bindRow, pgText]
    · simp only [hv, hs, if_false, Option.some.injEq] at hd
      subst hd
      simp at hlen

/-- With the storefront tag and a store that does not fail, an insert of a payload that
is not nullish returns. -/
theorem insertProduct_returns_storefront (env : Env)
    (hstore : ∀ log op, env.storeError log op = none) (hne : env.shopify ≠ env.vtex)
    (v : JSVal) (children : Bool) (parent_id image : JSVal) (w : World)
    (hobj : v.nullish = false) :
    ∃ w2, insertProduct env v env.shopify children parent_id image w = Res.ok () w2 := by
  obtain ⟨data, hd, hlen⟩ :=
    prepareData_shopify_returns env hne w.tick v children parent_id image hobj
  obtain ⟨r, hb⟩ := bindRow_of_prepareData hd hlen
  unfold insertProduct
  simp only [hd, hstore, hb]
  exact ⟨_, rfl⟩

/-- The lookup value of a variant that is not nullish evaluates. -/
theorem childKey_isSome (v : JSVal) (hobj : v.nullish = false) :
    ∃ id, childKey v = some id := by
  unfold childKey JSVal.orElse
  rw [JSVal.get_eq_field v "id" hobj, JSVal.get_eq_field v "itemId" hobj]
  by_cases h : (v.field "id").truthy = true
  · exact ⟨v.field "id", by simp [h]⟩
  · exact ⟨v.field "itemId", by simp [h]⟩

/-- With the storefront tag and a store that does not fail, the variant loop over
variants that are not nullish returns. -/
theorem processChildrenLoop_returns_storefront (env : Env)
    (hstore : ∀ log op, env.storeError log op = none) (hne : env.shopify ≠ env.vtex)
    (father : Option Row) :
    ∀ (vs : List JSVal) (w : World), (∀ v ∈ vs, v.nullish = false) →
      ∃ w2, processChildrenLoop env father env.shopify vs w = Res.ok () w2 := by
  intro vs
  induction vs with
  | nil => intro w _; exact ⟨w, by simp [processChildrenLoop]⟩
  | cons v rest ih =>
    intro w hall
    have hv := hall v (List.mem_cons_self v rest)
    have hrest : ∀ v1 ∈ rest, v1.nullish = false :=
      fun v1 h1 => hall v1 (List.mem_cons_of_mem v h1)
    obtain ⟨id, hk⟩ := childKey_isSome v hv
    rw [processChildrenLoop_cons]
    simp only [hk, getProductByExternalId_eq hstore]
    cases hfind : w.rows.find? (matchesLookup (pgText env (Param.val id)) false) with
    | some fnd => exact ih _ hrest
    | none =>
      simp only []
      obtain ⟨w2, hi⟩ := insertProduct_returns_storefront env hstore hne v true
        (fatherId father) (fatherImage father)
        { w with log := w.log ++ [Op.select id false] } hv
      rw [hi]
      exact ih w2 hrest

/-- With the storefront tag and a store that does not fail, `processProducts` returns on
every list of payloads that are not nullish and whose children, when there are any to
process, can be iterated and are not nullish. -/
theorem processProducts_returns_storefront (env : Env)
    (hstore : ∀ log op, env.storeError log op = none) (hne : env.shopify ≠ env.vtex) :
    ∀ (ps : List JSVal) (w : World),
      (∀ p ∈ ps, p.nullish = false
        ∧ (hasChildren env (childList p) = true →
            ∃ vs, (childList p).iterate = some vs ∧ ∀ v ∈ vs, v.nullish = false)) →
      ∃ w2, processProducts env env.shopify ps w = Res.ok () w2 := by
  intro ps
  induction ps with
  | nil => intro w _; exact ⟨w, by simp [processProducts]⟩
  | cons p rest ih =>
    intro w hall
    obtain ⟨hp, hch⟩ := hall p (List.mem_cons_self p rest)
    have hrest := fun q hq => hall q (List.mem_cons_of_mem p hq)
    have hchildren : ∀ w2, ∃ w3, childrenStep env p env.shopify w2 = Res.ok () w3 := by
      intro w2
      unfold childrenStep
      by_cases hc : hasChildren env (childList p) = true
      · obtain ⟨vs, hv, hvs⟩ := hch hc
        rw [if_pos hc]
        unfold processChildren
        simp only [getProductByExternalId_eq hstore, hv]
        exact processChildrenLoop_returns_storefront env hstore hne _ vs _ hvs
      · rw [if_neg hc]
        exact ⟨w2, rfl⟩
    have hroot : ∀ existing w1, ∃ w2, rootStep env p env.shopify existing w1 = Res.ok () w2 := by
      intro existing w1
      unfold rootStep
      cases existing with
      | some fnd => exact ⟨w1, rfl⟩
      | none =>
        exact insertProduct_returns_storefront env hstore hne p false JSVal.null
          (JSVal.str "") w1 hp
    rw [processProducts_cons]
    simp only [getProductByExternalId_eq hstore]
    obtain ⟨w2, h2⟩ := hroot
      (w.rows.find? (matchesLookup (pgText env (Param.val (lookupKey p))) true))
      { w with log := w.log ++ [Op.select (lookupKey p) true] }
    rw [h2]
    obtain ⟨w3, h3⟩ := hchildren w2
    simp only [h3]
    exact ih w3 hrest

/-! ## Insert order: claim C17 -/

/-- A lookup finds nothing when no row of the table carries the tag looked for. -/
theorem find?_none_of_fresh {rows : List Row} {key : Option String} (init : Bool)
    (hs : RowsShaped rows)
    (hfresh : ∀ r ∈ rows, rowTag r ≠ (some (if init then "true" else "false"), key)) :
    rows.find? (matchesLookup key init) = none := by
  rw [List.find?_eq_none]
  intro r hr hm
  obtain ⟨he, _, h1, h2⟩ := matchesLookup_true hm
  apply hfresh r hr
  unfold rowTag
  cases init with
  | true =>
    rcases hs r hr with ⟨hi, _⟩ | ⟨_, hp⟩
    · rw [hi, he]
      rfl
    · exact absurd (h1 rfl) hp
  | false =>
    rcases hs r hr with ⟨_, hp⟩ | ⟨hi, _⟩
    · exact absurd hp (h2 rfl)
    · rw [hi, he]
      rfl

theorem RowsShaped.append {a b : List Row} (ha : RowsShaped a) (hb : RowsShaped b) :
    RowsShaped (a ++ b) := by
  intro r hr
  rcases List.mem_append.mp hr with h | h
  · exact ha r h
  · exact hb r h

theorem RowsShaped.nil : RowsShaped [] := by
  intro r hr
  simp at hr

/-- The variant loop, with the parent found, on variants with consistent and distinct
ids none of which is in the table, appends the variants' rows in input order: the tags
of the rows added are an initial segment of the variants' tags, and all of them when
the loop returns. -/
theorem processChildrenLoop_order (env : Env) (f : Row) (pfx : String) :
    ∀ (vs : List JSVal) (w : World), RowsShaped w.rows →
      (∀ v ∈ vs, ∀ id, childKey v = some id →
        sameKey env id (storedId env pfx true v) = true) →
      (vs.map (childTag env)).Nodup →
      (∀ r ∈ w.rows, rowTag r ∉ vs.map (childTag env)) →
      ∃ added remaining,
        (processChildrenLoop env (some f) pfx vs w).world.rows = w.rows ++ added
        ∧ RowsShaped added
        ∧ added.map rowTag ++ remaining = vs.map (childTag env)
        ∧ (∀ w2, processChildrenLoop env (some f) pfx vs w = Res.ok () w2 →
            remaining = []) := by
  intro vs
  induction vs with
  | nil =>
    intro w _ _ _ _
    exact ⟨[], [], by simp [processChildrenLoop, Res.world], RowsShaped.nil, rfl,
      fun _ _ => rfl⟩
  | cons v rest ih =>
    intro w hs hkeys hnd hfresh
    rw [List.map_cons, List.nodup_cons] at hnd
    have hrest : ∀ v1 ∈ rest, ∀ id, childKey v1 = some id →
        sameKey env id (storedId env pfx true v1) = true :=
      fun v1 h1 => hkeys v1 (List.mem_cons_of_mem v h1)
    rw [processChildrenLoop_cons]
    cases hk : childKey v with
    | none =>
      exact ⟨[], (v :: rest).map (childTag env), by simp [Res.world], RowsShaped.nil,
        by simp, by intro w2 h; cases h⟩
    | some id =>
      simp only []
      cases hl : getProductByExternalId env id false w with
      | err e w1 =>
        obtain ⟨hw1, _⟩ := getProductByExternalId_err hl
        exact ⟨[], (v :: rest).map (childTag env), by simp [Res.world, hw1],
          RowsShaped.nil, by simp, by intro w2 h; cases h⟩
      | ok res w1 =>
        obtain ⟨hres, hw1, _⟩ := getProductByExternalId_ok hl
        have hrows : w1.rows = w.rows := by rw [hw1]
        have htagv : childTag env v = (some "false", pgText env (Param.val id)) := by
          simp [childTag, hk]
        have hnone : res = none := by
          rw [hres]
          refine find?_none_of_fresh false hs ?_
          intro r hr heq
          apply hfresh r hr
          rw [List.map_cons, heq, htagv]
          exact List.mem_cons_self _ _
        subst hnone
        simp only []
        cases hi : insertProduct env v pfx true (fatherId (some f))
            (fatherImage (some f)) w1 with
        | err e w2 =>
          obtain ⟨hr2, _⟩ := insertProduct_err hi
          exact ⟨[], (v :: rest).map (childTag env), by simp [Res.world, hr2, hrows],
            RowsShaped.nil, by simp, by intro w3 h; cases h⟩
        | ok a w2 =>
          obtain ⟨r, k, hr2, hk1, hext, hpar, hinit⟩ :=
            insertProduct_keyed_row hi (hkeys v (List.mem_cons_self v rest) id hk)
          have hrinit : r.init = some "false" := by simpa using hinit
          have hrpar : r.parent_id ≠ none := by
            rw [hpar]
            simp [fatherId, pgText]
          have htagr : rowTag r = childTag env v := by
            rw [htagv, hk1]
            unfold rowTag
            rw [hrinit, hext]
          have hshr : RowsShaped [r] := by
            intro r1 h1
            rw [List.mem_singleton] at h1
            subst h1
            exact Or.inr ⟨hrinit, hrpar⟩
          have hs2 : RowsShaped w2.rows := by
            rw [hr2, hrows]
            exact hs.append hshr
          have hfresh2 : ∀ r1 ∈ w2.rows, rowTag r1 ∉ rest.map (childTag env) := by
            intro r1 h1
            rw [hr2, hrows] at h1
            rcases List.mem_append.mp h1 with h | h
            · intro hmem
              exact hfresh r1 h (by rw [List.map_cons]; exact List.mem_cons_of_mem _ hmem)
            · rw [List.mem_singleton] at h
              subst h
              rw [htagr]
              exact hnd.1
          obtain ⟨added, remaining, hrw, hsh, hmap, hok⟩ := ih w2 hs2 hrest hnd.2 hfresh2
          refine ⟨r :: added, remaining, ?_, ?_, ?_, ?_⟩
          · show (processChildrenLoop env (some f) pfx rest w2).world.rows = _
            rw [hrw, hr2, hrows]
            simp
          · intro r1 h1
            rcases List.mem_cons.mp h1 with h | h
            · subst h
              exact Or.inr ⟨hrinit, hrpar⟩
            · exact hsh r1 h
          · rw [List.map_cons, List.cons_append, hmap, htagr, List.map_cons]
          · intro w3 h3
            exact hok w3 h3

/-- The children step of a product with consistent ids whose root is in the table and
whose variants have distinct ids, none of them in the table, appends the variants' rows
in input order. -/
theorem childrenStep_order (env : Env) (pfx : String) (p : JSVal) (w : World)
    (hs : RowsShaped w.rows) (hroot : found env w.rows (lookupKey p) true = true)
    (hp : wellKeyed env pfx p = true)
    (hnd : ((childrenOf env p).map (childTag env)).Nodup)
    (hfresh : ∀ r ∈ w.rows, rowTag r ∉ (childrenOf env p).map (childTag env)) :
    ∃ added remaining,
      (childrenStep env p pfx w).world.rows = w.rows ++ added
      ∧ RowsShaped added
      ∧ added.map rowTag ++ remaining = (childrenOf env p).map (childTag env)
      ∧ (∀ w2, childrenStep env p pfx w = Res.ok () w2 → remaining = []) := by
  unfold childrenStep
  by_cases hc : hasChildren env (childList p) = true
  · rw [if_pos hc]
    unfold processChildren
    cases hl : getProductByExternalId env (lookupKey p) true w with
    | err e w1 =>
      obtain ⟨hw1, _⟩ := getProductByExternalId_err hl
      exact ⟨[], (childrenOf env p).map (childTag env), by simp [Res.world, hw1],
        RowsShaped.nil, by simp, by intro w2 h; cases h⟩
    | ok father w1 =>
      obtain ⟨hres, hw1, _⟩ := getProductByExternalId_ok hl
      have hrows : w1.rows = w.rows := by rw [hw1]
      cases hv : (childList p).iterate with
      | none =>
        exact ⟨[], (childrenOf env p).map (childTag env), by simp [Res.world, hrows],
          RowsShaped.nil, by simp, by intro w2 h; cases h⟩
      | some vs =>
        simp only []
        have hch : childrenOf env p = vs := by
          unfold childrenOf
          rw [if_pos hc, hv]
          rfl
        rw [hch] at hnd hfresh
        rw [hch]
        cases father with
        | none =>
          unfold found at hroot
          rw [← hres] at hroot
          simp at hroot
        | some f =>
          obtain ⟨added, remaining, hrw, hsh, hmap, hok⟩ :=
            processChildrenLoop_order env f pfx vs w1 (by rw [hrows]; exact hs)
              (wellKeyed_children hp hc hv) hnd (by rw [hrows]; exact hfresh)
          exact ⟨added, remaining, by rw [hrw, hrows], hsh, hmap, hok⟩
  · rw [if_neg hc]
    have hch : childrenOf env p = [] := by
      unfold childrenOf
      rw [if_neg hc]
    rw [hch]
    exact ⟨[], [], by simp [Res.world], RowsShaped.nil, rfl, fun _ _ => rfl⟩

/-- Processing products with consistent and distinct ids, none of them in the table,
appends the rows in the pre-order of the input: the tags of the rows added are an
initial segment of the traversal, and all of it when the call returns. -/
theorem processProducts_order (env : Env) (pfx : String) :
    ∀ (ps : List JSVal) (w : World), RowsShaped w.rows →
      (∀ p ∈ ps, wellKeyed env pfx p = true) →
      (preorder env ps).Nodup →
      (∀ r ∈ w.rows, rowTag r ∉ preorder env ps) →
      ∃ added remaining,
        (processProducts env pfx ps w).world.rows = w.rows ++ added
        ∧ RowsShaped added
        ∧ added.map rowTag ++ remaining = preorder env ps
        ∧ (∀ w2, processProducts env pfx ps w = Res.ok () w2 → remaining = []) := by
  intro ps
  induction ps with
  | nil =>
    intro w _ _ _ _
    exact ⟨[], [], by simp [processProducts, Res.world], RowsShaped.nil, rfl,
      fun _ _ => rfl⟩
  | cons p rest ih =>
    intro w hs hps hnd hfresh
    have hp := hps p (List.mem_cons_self p rest)
    have hrest : ∀ q ∈ rest, wellKeyed env pfx q = true :=
      fun q hq => hps q (List.mem_cons_of_mem p hq)
    have hpre : preorder env (p :: rest)
        = rootTag env p :: ((childrenOf env p).map (childTag env) ++ preorder env rest) :=
      rfl
    rw [hpre] at hnd hfresh
    rw [hpre]
    rw [List.nodup_cons, List.nodup_append] at hnd
    obtain ⟨hroot_fresh, hnd_c, hnd_r, hdisj⟩ := hnd
    rw [processProducts_cons]
    cases hl : getProductByExternalId env (lookupKey p) true w with
    | err e w1 =>
      obtain ⟨hw1, _⟩ := getProductByExternalId_err hl
      exact ⟨[], rootTag env p :: ((childrenOf env p).map (childTag env) ++ preorder env rest),
        by simp [Res.world, hw1], RowsShaped.nil, by simp, by intro w2 h; cases h⟩
    | ok existing w1 =>
      obtain ⟨hres, hw1, _⟩ := getProductByExternalId_ok hl
      have hrows : w1.rows = w.rows := by rw [hw1]
      have hnone : existing = none := by
        rw [hres]
        refine find?_none_of_fresh true hs ?_
        intro r hr heq
        apply hfresh r hr
        rw [heq]
        exact List.mem_cons_self _ _
      subst hnone
      simp only [rootStep]
      cases hi : insertProduct env p pfx false JSVal.null (JSVal.str "") w1 with
      | err e w2 =>
        obtain ⟨hr2, _⟩ := insertProduct_err hi
        exact ⟨[],
          rootTag env p :: ((childrenOf env p).map (childTag env) ++ preorder env rest),
          by simp [Res.world, hr2, hrows], RowsShaped.nil, by simp,
          by intro w3 h; cases h⟩
      | ok a w2 =>
        obtain ⟨r, k, hr2, hk1, hext, hpar, hinit⟩ :=
          insertProduct_keyed_row hi (wellKeyed_root hp)
        have hrinit : r.init = some "true" := by simpa using hinit
        have hrpar : r.parent_id = none := by simpa using hpar
        have htagr : rowTag r = rootTag env p := by
          unfold rowTag rootTag
          rw [hrinit, hext, hk1]
        have hshr : RowsShaped [r] := by
          intro r1 h1
          rw [List.mem_singleton] at h1
          subst h1
          exact Or.inl ⟨hrinit, hrpar⟩
        have hs2 : RowsShaped w2.rows := by
          rw [hr2, hrows]
          exact hs.append hshr
        have hfound2 : found env w2.rows (lookupKey p) true = true := by
          unfold found
          rw [List.find?_isSome]
          refine ⟨r, by rw [hr2]; simp, ?_⟩
          rw [hk1]
          exact matchesLookup_of hext (by rw [hrpar]; rfl)
        have hfresh_c : ∀ r1 ∈ w2.rows,
            rowTag r1 ∉ (childrenOf env p).map (childTag env) := by
          intro r1 h1 hmem
          rw [hr2, hrows] at h1
          rcases List.mem_append.mp h1 with h | h
          · exact hfresh r1 h (List.mem_cons_of_mem _ (List.mem_append_left _ hmem))
          · rw [List.mem_singleton] at h
            subst h
            rw [htagr] at hmem
            exact hroot_fresh (List.mem_append_left _ hmem)
        obtain ⟨a1, rem1, hrw1, hsh1, hmap1, hok1⟩ :=
          childrenStep_order env pfx p w2 hs2 hfound2 hp hnd_c hfresh_c
        simp only []
        cases hc : childrenStep env p pfx w2 with
        | err e w3 =>
          rw [hc] at hrw1
          refine ⟨r :: a1, rem1 ++ preorder env rest, ?_, ?_, ?_, ?_⟩
          · show w3.rows = _
            have : w3.rows = w2.rows ++ a1 := hrw1
            rw [this, hr2, hrows]
            simp
          · intro r1 h1
            rcases List.mem_cons.mp h1 with h | h
            · subst h
              exact Or.inl ⟨hrinit, hrpar⟩
            · exact hsh1 r1 h
          · rw [List.map_cons, List.cons_append, ← List.append_assoc, hmap1, htagr]
          · intro w4 h
            cases h
        | ok a w3 =>
          rw [hc] at hrw1
          have hrw3 : w3.rows = w2.rows ++ a1 := hrw1
          have hrem1 : rem1 = [] := hok1 w3 (by rw [hc])
          subst hrem1
          rw [List.append_nil] at hmap1
          have hs3 : RowsShaped w3.rows := by
            rw [hrw3]
            exact hs2.append hsh1
          have hfresh3 : ∀ r1 ∈ w3.rows, rowTag r1 ∉ preorder env rest := by
            intro r1 h1 hmem
            rw [hrw3, hr2, hrows] at h1
            rcases List.mem_append.mp h1 with h | h
            · rcases List.mem_append.mp h with h | h
              · exact hfresh r1 h (List.mem_cons_of_mem _ (List.mem_append_right _ hmem))
              · rw [List.mem_singleton] at h
                subst h
                rw [htagr] at hmem
                exact hroot_fresh (List.mem_append_right _ hmem)
            · have hin : rowTag r1 ∈ (childrenOf env p).map (childTag env) := by
                rw [← hmap1]
                exact List.mem_map_of_mem rowTag h
              exact hdisj hin hmem
          obtain ⟨a2, rem2, hrw2, hsh2, hmap2, hok2⟩ := ih w3 hs3 hrest hnd_r hfresh3
          refine ⟨r :: (a1 ++ a2), rem2, ?_, ?_, ?_, ?_⟩
          · show (processProducts env pfx rest w3).world.rows = _
            rw [hrw2, hrw3, hr2, hrows]
            simp
          · intro r1 h1
            rcases List.mem_cons.mp h1 with h | h
            · subst h
              exact Or.inl ⟨hrinit, hrpar⟩
            · exact (hsh1.append hsh2) r1 h
          · rw [List.map_cons, List.map_append, List.cons_append, List.append_assoc, hmap2,
              hmap1, htagr]
          · intro w4 h4
            exact hok2 w4 h4

/-- For a product whose two list fields are lists or absent, the values the code visits
are the elements of the first list field that is present, and when it visits any it
iterates exactly these. -/
theorem childrenOf_firstPresent (env : Env) (p : JSVal)
    (hi : listOrAbsent (p.field "items") = true)
    (hv : listOrAbsent (p.field "variants") = true) :
    childrenOf env p = firstPresentChildren p
    ∧ (hasChildren env (childList p) = true →
        (childList p).iterate = some (firstPresentChildren p)) := by
  unfold childrenOf firstPresentChildren
  rw [childList_eq]
  cases hitems : p.field "items" with
  | arr xs =>
    cases xs with
    | nil => simp [JSVal.truthy, hasChildren, JSVal.get, gtZero]
    | cons x t => simp [JSVal.truthy, hasChildren, JSVal.get, gtZero, JSVal.iterate]
  | undefined | null =>
    cases hvars : p.field "variants" with
    | arr ys =>
      cases ys with
      | nil => simp [JSVal.truthy, hasChildren, JSVal.get, gtZero, JSVal.elems]
      | cons y t =>
        simp [JSVal.truthy, hasChildren, JSVal.get, gtZero, JSVal.iterate, JSVal.elems]
    | undefined | null => simp [JSVal.truthy, hasChildren, JSVal.elems]
    | _ => simp [hvars, listOrAbsent] at hv
  | _ => simp [hitems, listOrAbsent] at hi

/-- For products whose two list fields are lists or absent, the order in which the code
visits the tags is the pre-order traversal over the first list field that is present. -/
theorem preorder_eq_traversal (env : Env) :
    ∀ ps : List JSVal,
      (∀ p ∈ ps, listOrAbsent (p.field "items") = true
        ∧ listOrAbsent (p.field "variants") = true) →
      preorder env ps = traversal env firstPresentChildren ps := by
  intro ps
  induction ps with
  | nil => intro _; rfl
  | cons p rest ih =>
    intro h
    obtain ⟨hi, hv⟩ := h p (List.mem_cons_self p rest)
    have hrest := ih (fun q hq => h q (List.mem_cons_of_mem p hq))
    show rootTag env p :: ((childrenOf env p).map (childTag env) ++ preorder env rest)
      = rootTag env p :: ((firstPresentChildren p).map (childTag env)
          ++ traversal env firstPresentChildren rest)
    rw [(childrenOf_firstPresent env p hi hv).1, hrest]

/-- The two readings of "the variants of a product" agree unless `items` is an empty
list next to a `variants` list that has elements. -/
theorem firstPresent_eq_firstNonEmpty (p : JSVal)
    (h : p.field "items" = JSVal.arr [] → (p.field "variants").elems = []) :
    firstPresentChildren p = firstNonEmptyChildren p := by
  unfold firstPresentChildren firstNonEmptyChildren
  cases hitems : p.field "items" with
  | arr xs =>
    cases xs with
    | nil => simpa [JSVal.elems] using h hitems
    | cons x t => simp [JSVal.elems]
  | _ => simp [JSVal.elems]

/-- C17 (fails on the code): with the storefront tag and the empty table, the product
`{id: "P1", title: "T", items: [], variants: [{id: "V1"}]}` has present,
platform-consistent and distinct ids, and the pre-order traversal of the input is the
root `"P1"` followed by its variant `"V1"`; the call returns having inserted the root
`"P1"` only: the empty `items` list is truthy and hides the variants. -/
theorem C17_empty_items_break_order :
    wellKeyed Env.sample "shopify" productEmptyItems = true
    ∧ sameKey Env.sample (JSVal.str "V1")
        (storedId Env.sample "shopify" true (JSVal.obj [("id", JSVal.str "V1")])) = true
    ∧ traversal Env.sample firstNonEmptyChildren [productEmptyItems]
        = [(some "true", some "P1"), (some "false", some "V1")]
    ∧ (traversal Env.sample firstNonEmptyChildren [productEmptyItems]).Nodup
    ∧ (processProducts Env.sample "shopify" [productEmptyItems] World.empty).error = none
    ∧ (processProducts Env.sample "shopify" [productEmptyItems] World.empty).world.rows.map
        rowTag = [(some "true", some "P1")] := by
  decide

/-- C17 (amended): starting from the empty table, for every input list whose products
have their two list fields as lists or absent and whose products and variants have
present, platform-consistent ids (`wellKeyed`) that are distinct within their scope (the
traversal has no duplicate), the rows `processProducts` inserts follow the pre-order
traversal of the input in which the variants of a product are the elements of its
`items` field when that field is a list, empty or not, and of its `variants` field
otherwise: products in input order, each root row immediately followed by these
variants' rows in their input order. The rows inserted are an initial segment of the
traversal whatever the outcome, and the whole traversal when the call returns; with the
storefront tag, a store that does not fail and payloads that are not nullish, the call
returns. This traversal is the one over the first non-empty of the two list fields
whenever no product has an empty `items` list next to a `variants` list with
elements. -/
theorem C17_insert_order (env : Env) (pfx : String) (ps : List JSVal)
    (hkeys : ∀ p ∈ ps, wellKeyed env pfx p = true)
    (hshape : ∀ p ∈ ps, listOrAbsent (p.field "items") = true
      ∧ listOrAbsent (p.field "variants") = true)
    (hdistinct : (traversal env firstPresentChildren ps).Nodup) :
    (processProducts env pfx ps World.empty).world.rows.map rowTag
        <+: traversal env firstPresentChildren ps
    ∧ (∀ w, processProducts env pfx ps World.empty = Res.ok () w →
        w.rows.map rowTag = traversal env firstPresentChildren ps)
    ∧ (pfx = env.shopify → env.shopify ≠ env.vtex →
        (∀ log op, env.storeError log op = none) →
        (∀ p ∈ ps, p.nullish = false ∧ ∀ v ∈ firstPresentChildren p, v.nullish = false) →
        (processProducts env pfx ps World.empty).error = none
        ∧ (processProducts env pfx ps World.empty).world.rows.map rowTag
            = traversal env firstPresentChildren ps)
    ∧ ((∀ p ∈ ps, p.field "items" = JSVal.arr [] → (p.field "variants").elems = []) →
        traversal env firstPresentChildren ps = traversal env firstNonEmptyChildren ps) := by
  have hpre := preorder_eq_traversal env ps hshape
  rw [← hpre] at hdistinct
  rw [← hpre]
  obtain ⟨added, remaining, hrw, _, hmap, hok⟩ :=
    processProducts_order env pfx ps World.empty RowsShaped.nil hkeys hdistinct
      (by intro r hr; simp [World.empty] at hr)
  have hrows : (processProducts env pfx ps World.empty).world.rows = added := by
    rw [hrw]
    simp [World.empty]
  have hfull : ∀ w, processProducts env pfx ps World.empty = Res.ok () w →
      w.rows.map rowTag = preorder env ps := by
    intro w h
    have hrem := hok w h
    subst hrem
    rw [h] at hrows
    have : w.rows = added := hrows
    rw [this, ← hmap, List.append_nil]
  refine ⟨?_, hfull, ?_, ?_⟩
  · rw [hrows]
    exact ⟨remaining, hmap⟩
  · intro hpfx hne hstore hobj
    subst hpfx
    obtain ⟨w2, h2⟩ := processProducts_returns_storefront env hstore hne ps World.empty
      (by
        intro p hp
        obtain ⟨hi, hv⟩ := hshape p hp
        refine ⟨(hobj p hp).1, ?_⟩
        intro hc
        exact ⟨firstPresentChildren p, (childrenOf_firstPresent env p hi hv).2 hc,
          (hobj p hp).2⟩)
    have h3 := hfull w2 h2
    rw [h2]
    exact ⟨rfl, h3⟩
  · intro hno
    rw [hpre]
    clear hdistinct hrw hmap hok hrows hfull hpre hkeys hshape
    induction ps with
    | nil => rfl
    | cons p rest ih =>
      show rootTag env p :: ((firstPresentChildren p).map (childTag env)
          ++ traversal env firstPresentChildren rest)
        = rootTag env p :: ((firstNonEmptyChildren p).map (childTag env)
          ++ traversal env firstNonEmptyChildren rest)
      rw [firstPresent_eq_firstNonEmpty p (hno p (List.mem_cons_self p rest)),
        ih (fun q hq => hno q (List.mem_cons_of_mem p hq))]

/-- C17, an instance: `"P1"` with variants `"V1"`, `"V2"`, then `"P2"`, on the empty
table: the rows are the root of `"P1"`, its two variants, and the root of `"P2"`. -/
theorem C17_insert_order_witness :
    (processProducts Env.sample "shopify" [productWithVariants, plainProduct "P2"]
        World.empty).world.rows.map rowTag
      = [(some "true", some "P1"), (some "false", some "V1"), (some "false", some "V2"),
         (some "true", some "P2")] := by
  have h := (C17_insert_order Env.sample "shopify"
    [productWithVariants, plainProduct "P2"] (by decide) (by decide) (by decide)).2.1
    (processProducts Env.sample "shopify" [productWithVariants, plainProduct "P2"]
      World.empty).world rfl
  rw [h]
  decide

end ExpressApi
